/-
Verification of the RAG pipeline (document chunking, embedding-quality
gating, upload deduplication, and retrieval ranking).

The development is a shallow embedding of the TypeScript sources:

* `src/utils/textChunker.ts`         (chunkText and its splitters)
* `src/processors/semanticChunker.ts` (SemanticChunker.chunkSection / createChunk)
* `src/config/embeddings.ts`         (configuration constants, estimateTokenCount)
* `src/utils/ragProcessor.ts`        (OpenAIEmbeddingService, SupabaseVectorService)

Modelling conventions:

* JavaScript strings are modelled as `List Char` (`Str`).  JS string methods
  (`split`, `trim`, `replace`, …) are re-implemented below with the exact
  semantics of the regular expressions appearing in the source.
* JS numbers are modelled as `ℚ` (the arithmetic appearing in the scored
  quantities is exact on the rationals; a remark is attached at the one spot
  where the float value NaN could behave differently).
* `Date.now()` is modelled as an explicit `now : ℕ` parameter.
* Outbound network capabilities (the OpenAI embeddings endpoint, the
  Supabase insert / RPC) are modelled as function parameters, so that a
  theorem can quantify over every behaviour of the external service.
* `Math.sqrt` (a float primitive) is modelled as a function parameter of
  `cosineSimilarity`; no claim depends on its value.
-/
import Mathlib

namespace Rag

/-- JavaScript strings, modelled as lists of characters. -/
abbrev Str := List Char

/-- The ASCII core of the JS regex class `\s` (space, tab, newline, carriage
return, vertical tab, form feed).  All inputs considered in this development
are ASCII, where this matches the JS semantics exactly. -/
def isWs (c : Char) : Bool :=
  c = ' ' || c = '\t' || c = '\n' || c = '\r' || c = '\x0b' || c = '\x0c'

/-- Sentence-ending punctuation, the regex class `[.!?]`. -/
def isPunct (c : Char) : Bool :=
  c = '.' || c = '!' || c = '?'

/-- The regex class `\w` : `[A-Za-z0-9_]`. -/
def isWordChar (c : Char) : Bool :=
  (('a' ≤ c && c ≤ 'z') || ('A' ≤ c && c ≤ 'Z') || ('0' ≤ c && c ≤ '9') || c = '_')

/-- `[a-zA-Z]`. -/
def isAlpha (c : Char) : Bool :=
  (('a' ≤ c && c ≤ 'z') || ('A' ≤ c && c ≤ 'Z'))

/-- Remove every whitespace character (used to state content preservation:
`text.replace(/\s+/g, '')` also computes exactly this). -/
def stripWs (s : Str) : Str := s.filter (fun c => !isWs c)

/-- JS `String.prototype.trim()` (whitespace removed from both ends). -/
def trimJS (s : Str) : Str :=
  ((s.dropWhile isWs).reverse.dropWhile isWs).reverse

/-- JS `s.split(/\s+/)`: pieces between maximal whitespace runs; a leading
(resp. trailing) run produces a leading (resp. trailing) empty piece, and
`"".split(/\s+/)` is `[""]`, exactly as in JS.  A whitespace character whose
successor is also whitespace sits inside its (maximal) run and contributes
nothing; the run's last whitespace character closes the piece boundary. -/
def splitWsJS : Str → List Str
  | [] => [[]]
  | c :: rest =>
    let ps := splitWsJS rest
    if isWs c then
      match rest with
      | d :: _ => if isWs d then ps else [] :: ps
      | [] => [] :: ps
    else
      match ps with
      | p :: ps2 => (c :: p) :: ps2
      | [] => [[c]]

/-- JS `words.join(' ')`. -/
def joinSp : List Str → Str
  | [] => []
  | [w] => w
  | w :: ws => w ++ ' ' :: joinSp ws

/-- `estimateTokenCount` from `src/config/embeddings.ts`:
`Math.ceil(text.length / 4)`.  (`textChunker.ts`'s `countTokens` first tries
the external js-tiktoken encoder and falls back to this same approximation;
the token counter is therefore passed as a parameter `tc` to the splitters
and instantiated with this in-repo approximation in concrete examples.) -/
def estimateTokenCount (s : Str) : ℕ := (s.length + 3) / 4

/-- JS `s.split(/[.!?]+/)`: pieces between maximal runs of sentence
punctuation (the runs themselves are discarded); same run convention as
`splitWsJS`. -/
def splitPunctJS : Str → List Str
  | [] => [[]]
  | c :: rest =>
    let ps := splitPunctJS rest
    if isPunct c then
      match rest with
      | d :: _ => if isPunct d then ps else [] :: ps
      | [] => [] :: ps
    else
      match ps with
      | p :: ps2 => (c :: p) :: ps2
      | [] => [[c]]

/-- Loop of `splitSentencesKeepJS`.  A delimiter of `/(?<=[.!?])\s+/` is a
maximal whitespace run immediately preceded by `[.!?]`; the lookbehind keeps
the punctuation inside the previous piece.  `cur` is the current piece,
reversed (so its head is the character before the scan point); `inDelim`
says the scan point sits inside a delimiter run being absorbed. -/
def splitSentGo (inDelim : Bool) (cur : Str) : Str → List Str
  | [] => [cur.reverse]
  | c :: rest =>
    if inDelim && isWs c then splitSentGo true cur rest
    else if isWs c && (match cur with | p :: _ => isPunct p | [] => false) then
      cur.reverse :: splitSentGo true [] rest
    else splitSentGo false (c :: cur) rest

/-- JS `s.split(/(?<=[.!?])\s+/)`. -/
def splitSentencesKeepJS (s : Str) : List Str := splitSentGo false [] s

/-- The index of the last `'\n'` in `l`, or `none` when `l` contains no
newline. -/
def lastNlIdx : Str → Option ℕ
  | [] => none
  | c :: rest =>
    match lastNlIdx rest with
    | some j => some (j + 1)
    | none => if c = '\n' then some 0 else none

/-- Loop of `splitParagraphsJS`.  A delimiter of `/\n\s*\n/` starting at a
newline `c` extends, by greedy matching with backtracking, through the last
newline of the maximal whitespace run that follows `c`; the scan resumes
right after that newline.  `skip` counts delimiter characters still to be
consumed, so the recursion is structural on the input. -/
def splitParaGo (skip : ℕ) (cur : Str) : Str → List Str
  | [] => [cur.reverse]
  | c :: rest =>
    match skip with
    | k + 1 => splitParaGo k cur rest
    | 0 =>
      if c = '\n' then
        match lastNlIdx (rest.takeWhile isWs) with
        | some j => cur.reverse :: splitParaGo (j + 1) [] rest
        | none => splitParaGo 0 (c :: cur) rest
      else splitParaGo 0 (c :: cur) rest

/-- JS `s.split(/\n\s*\n/)`. -/
def splitParagraphsJS (s : Str) : List Str := splitParaGo 0 [] s

/-- JS `s.replace(/\s+/g, ' ')`: every maximal whitespace run becomes one
space (a whitespace character followed by more whitespace sits inside its
run and is dropped; the run's last whitespace character emits the space). -/
def collapseWsJS : Str → Str
  | [] => []
  | c :: rest =>
    if isWs c then
      match rest with
      | d :: _ => if isWs d then collapseWsJS rest else ' ' :: collapseWsJS rest
      | [] => [' ']
    else c :: collapseWsJS rest

/-- JS `s.replace(/\r\n/g, '\n')`. -/
def replCrLf : Str → Str
  | '\r' :: '\n' :: rest => '\n' :: replCrLf rest
  | c :: rest => c :: replCrLf rest
  | [] => []

/-- JS `s.replace(/\r/g, '\n')`. -/
def replCr (s : Str) : Str := s.map (fun c => if c = '\r' then '\n' else c)

/-- Loop of `collapse3Nl` (`skip` counts run characters already emitted,
keeping the recursion structural). -/
def collapse3NlGo (skip : ℕ) : Str → Str
  | [] => []
  | c :: rest =>
    match skip with
    | k + 1 => collapse3NlGo k rest
    | 0 =>
      if c = '\n' then
        let run := rest.takeWhile (fun d => d = '\n')
        (if run.length + 1 ≥ 3 then ['\n', '\n'] else '\n' :: run) ++
          collapse3NlGo run.length rest
      else c :: collapse3NlGo 0 rest

/-- JS `s.replace(/\n{3,}/g, '\n\n')`: every maximal run of at least three
newlines becomes exactly two. -/
def collapse3Nl (s : Str) : Str := collapse3NlGo 0 s

/-- The text normalisation at the top of `chunkText`:
`.replace(/\r\n/g,'\n').replace(/\r/g,'\n').replace(/\n{3,}/g,'\n\n').trim()`. -/
def cleanTextOf (s : Str) : Str := trimJS (collapse3Nl (replCr (replCrLf s)))

/-- First index `≥ from` at which `needle` occurs in `hay`
(JS `hay.indexOf(needle, from)`, with `none` for `-1`). -/
def idxOfFromGo (needle : Str) : Str → ℕ → Option ℕ
  | hay, i =>
    if needle.isPrefixOf hay then some i
    else
      match hay with
      | [] => none
      | _ :: rest => idxOfFromGo needle rest (i + 1)

def idxOfFrom (needle hay : Str) (start : ℕ) : Option ℕ :=
  (idxOfFromGo needle (hay.drop start) start)

/-! ### `src/utils/textChunker.ts` -/

/-- `ChunkingOptions` of `textChunker.ts`. -/
structure ChunkingOptions where
  maxTokens : ℕ
  chunkOverlap : ℕ
  preserveParagraphs : Bool
  preserveSentences : Bool
  minChunkSize : ℕ
deriving Repr, DecidableEq

/-- `DEFAULT_CHUNKING_OPTIONS`. -/
def defaultChunkingOptions : ChunkingOptions :=
  { maxTokens := 800, chunkOverlap := 100, preserveParagraphs := true
    preserveSentences := true, minChunkSize := 50 }

/-- The `chunkType` tag of a `TextChunk`. -/
inductive ChunkType where
  | paragraph | sentence | arbitrary
deriving Repr, DecidableEq

/-- `TextChunk` of `textChunker.ts` (the `metadata` object is flattened into
the record). -/
structure TextChunk where
  content : Str
  index : ℕ
  source : Str
  startChar : ℕ
  endChar : ℕ
  tokenCount : ℕ
  wordCount : ℕ
  chunkType : ChunkType
  quality : ℚ
deriving Repr, DecidableEq

/-- `calculateQuality` of `textChunker.ts`.  All branch conditions are exact
rational comparisons; on JS floats the same branches are taken, except on the
degenerate empty string where `alphaRatio` is `NaN` (neither branch of the
alpha test fires in JS, while the model takes the `< 0.5` branch) — no claim
below depends on the quality score of an empty chunk. -/
def calculateQuality (text : Str) : ℚ :=
  let score0 : ℚ := 0.5
  let wordCount := (splitWsJS text).length
  let score1 :=
    if wordCount ≥ 50 ∧ wordCount ≤ 200 then score0 + 0.2
    else if wordCount < 20 then score0 - 0.2 else score0
  let sentences := (splitPunctJS text).filter (fun s => !(trimJS s).isEmpty)
  let score2 := if sentences.length ≥ 2 then score1 + 0.1 else score1
  let score3 :=
    if ['\n', '\n'] <:+: text ∨ ['\n'] <:+: text then
      score2 + 0.1
    else score2
  let avgWordLength : ℚ := (stripWs text).length / (wordCount : ℚ)
  let score4 := if avgWordLength ≥ 4 then score3 + 0.1 else score3
  let alphaFrac : ℚ := ((text.filter isAlpha).length : ℚ) / (text.length : ℚ)
  let score5 :=
    if alphaFrac ≥ 0.7 then score4 + 0.1
    else if alphaFrac < 0.5 then score4 - 0.2 else score4
  max 0 (min 1 score5)

/-- Loop of `splitArbitrarily`: iterates over the words with the accumulated
`chunks` and the current chunk `current` (`''` is the falsy initial value).
`tc` is the token counter (`countTokens` in the source, see
`estimateTokenCount`). -/
def splitArbGo (tc : Str → ℕ) (maxTokens overlap : ℕ)
    (chunks : List Str) (current : Str) : List Str → List Str
  | [] => if current.isEmpty then chunks else chunks ++ [current]
  | w :: ws =>
    let testChunk := if current.isEmpty then w else current ++ ' ' :: w
    if tc testChunk ≤ maxTokens then
      splitArbGo tc maxTokens overlap chunks testChunk ws
    else if ¬current.isEmpty then
      let chunks' := chunks ++ [current]
      if overlap > 0 then
        let cw := splitWsJS current
        let ow := cw.drop (cw.length - min overlap cw.length)
        splitArbGo tc maxTokens overlap chunks' (joinSp ow ++ ' ' :: w) ws
      else splitArbGo tc maxTokens overlap chunks' w ws
    else splitArbGo tc maxTokens overlap (chunks ++ [w]) [] ws

/-- `splitArbitrarily` of `textChunker.ts`. -/
def splitArbitrarily (tc : Str → ℕ) (maxTokens overlap : ℕ) (text : Str) :
    List Str :=
  splitArbGo tc maxTokens overlap [] [] (splitWsJS text)

/-- Loop of `splitBySentences`. -/
def splitSentencesGo (tc : Str → ℕ) (maxTokens overlap : ℕ)
    (chunks : List Str) (current : Str) : List Str → List Str
  | [] => if current.isEmpty then chunks else chunks ++ [current]
  | s :: ss =>
    let testChunk := if current.isEmpty then s else current ++ ' ' :: s
    if tc testChunk ≤ maxTokens then
      splitSentencesGo tc maxTokens overlap chunks testChunk ss
    else if ¬current.isEmpty then
      let chunks' := chunks ++ [current]
      if overlap > 0 then
        let cw := splitWsJS current
        let ow := cw.drop (cw.length - min overlap cw.length)
        splitSentencesGo tc maxTokens overlap chunks' (joinSp ow ++ ' ' :: s) ss
      else splitSentencesGo tc maxTokens overlap chunks' s ss
    else
      splitSentencesGo tc maxTokens overlap
        (chunks ++ splitArbitrarily tc maxTokens overlap s) [] ss

/-- `splitBySentences` of `textChunker.ts`. -/
def splitBySentences (tc : Str → ℕ) (maxTokens overlap : ℕ) (text : Str) :
    List Str :=
  splitSentencesGo tc maxTokens overlap [] []
    ((splitSentencesKeepJS text).filter (fun s => !(trimJS s).isEmpty))

/-- Loop of `splitByParagraphs` (the joiner is `'\n\n'`). -/
def splitParagraphsGo (tc : Str → ℕ) (maxTokens overlap : ℕ)
    (chunks : List Str) (current : Str) : List Str → List Str
  | [] => if current.isEmpty then chunks else chunks ++ [current]
  | p :: ps =>
    let testChunk := if current.isEmpty then p else current ++ '\n' :: '\n' :: p
    if tc testChunk ≤ maxTokens then
      splitParagraphsGo tc maxTokens overlap chunks testChunk ps
    else if ¬current.isEmpty then
      let chunks' := chunks ++ [current]
      if overlap > 0 then
        let cw := splitWsJS current
        let ow := cw.drop (cw.length - min overlap cw.length)
        splitParagraphsGo tc maxTokens overlap chunks'
          (joinSp ow ++ '\n' :: '\n' :: p) ps
      else splitParagraphsGo tc maxTokens overlap chunks' p ps
    else
      splitParagraphsGo tc maxTokens overlap
        (chunks ++ splitBySentences tc maxTokens overlap p) [] ps

/-- `splitByParagraphs` of `textChunker.ts`. -/
def splitByParagraphs (tc : Str → ℕ) (maxTokens overlap : ℕ) (text : Str) :
    List Str :=
  splitParagraphsGo tc maxTokens overlap [] []
    ((splitParagraphsJS text).filter (fun p => !(trimJS p).isEmpty))

/-- The chunk-type tagging inside `chunkText`'s conversion loop:
`'\n\n'` infix ⇒ paragraph, trailing `/[.!?]\s*$/` ⇒ sentence, else
arbitrary. -/
def tagChunkType (p : Str) : ChunkType :=
  if ['\n', '\n'] <:+: p then ChunkType.paragraph
  else
    match p.reverse.dropWhile isWs with
    | c :: _ => if isPunct c then ChunkType.sentence else ChunkType.arbitrary
    | [] => ChunkType.arbitrary

/-- The conversion loop of `chunkText`, turning the split pieces into
`TextChunk` records with positions computed by `cleanText.indexOf`. -/
def toTextChunks (tc : Str → ℕ) (cleanText source : Str) :
    List Str → ℕ → ℕ → List TextChunk
  | [], _, _ => []
  | p :: ps, i, currentPos =>
    let startPos? := idxOfFrom p cleanText currentPos
    let startChar := match startPos? with | some sp => sp | none => currentPos
    let endChar := match startPos? with
      | some sp => sp + p.length
      | none => currentPos + p.length
    let chunk : TextChunk :=
      { content := p, index := i, source := source
        startChar := startChar, endChar := endChar
        tokenCount := tc p, wordCount := (splitWsJS p).length
        chunkType := tagChunkType p, quality := calculateQuality p }
    let nextPos := match startPos? with
      | some sp => sp + p.length
      | none => currentPos + p.length
    chunk :: toTextChunks tc cleanText source ps (i + 1) nextPos

/-- `chunkText` before its final minimum-size filter: the normalisation, the
single-chunk shortcut, the strategy selection and the metadata conversion. -/
def chunkTextRaw (tc : Str → ℕ) (text source : Str) (opts : ChunkingOptions) :
    List TextChunk :=
  let cleanText := cleanTextOf text
  if cleanText.isEmpty ∨ tc cleanText ≤ opts.maxTokens then
    [{ content := cleanText, index := 0, source := source
       startChar := 0, endChar := cleanText.length
       tokenCount := tc cleanText, wordCount := (splitWsJS cleanText).length
       chunkType := ChunkType.paragraph, quality := calculateQuality cleanText }]
  else
    let pieces :=
      if opts.preserveParagraphs then
        splitByParagraphs tc opts.maxTokens opts.chunkOverlap cleanText
      else if opts.preserveSentences then
        splitBySentences tc opts.maxTokens opts.chunkOverlap cleanText
      else splitArbitrarily tc opts.maxTokens opts.chunkOverlap cleanText
    toTextChunks tc cleanText source pieces 0 0

/-- `chunkText` of `textChunker.ts`.  The single-chunk shortcut returns
without filtering; the split path ends with
`chunks.filter(c => c.tokenCount >= minChunkSize || c.wordCount >= 10)`. -/
def chunkText (tc : Str → ℕ) (text source : Str) (opts : ChunkingOptions) :
    List TextChunk :=
  let cleanText := cleanTextOf text
  if cleanText.isEmpty ∨ tc cleanText ≤ opts.maxTokens then
    chunkTextRaw tc text source opts
  else
    (chunkTextRaw tc text source opts).filter
      (fun c => opts.minChunkSize ≤ c.tokenCount ∨ 10 ≤ c.wordCount)

/-! ### `src/config/embeddings.ts` and `src/processors/semanticChunker.ts` -/

/-- `CONTENT_TYPES` (string constants in the source). -/
def ctHeading : Str := "heading".toList
def ctParagraph : Str := "paragraph".toList
def ctList : Str := "list".toList
def ctTable : Str := "table".toList
def ctCode : Str := "code".toList
def ctQuote : Str := "quote".toList
def ctFormula : Str := "formula".toList
def ctReference : Str := "reference".toList

/-- `CHUNKING_CONFIG.maxTokens`. -/
def chunkingMaxTokens : ℕ := 512

/-- `CHUNKING_CONFIG.minTokens`. -/
def chunkingMinTokens : ℕ := 100

/-- `getOptimalChunkSize` of `src/config/embeddings.ts` (falls back to
`CHUNKING_CONFIG.maxTokens`). -/
def getOptimalChunkSize (contentType : Str) : ℕ :=
  if contentType = ctHeading then 256
  else if contentType = ctParagraph then 512
  else if contentType = ctList then 384
  else if contentType = ctTable then 768
  else if contentType = ctCode then 1024
  else if contentType = ctQuote then 256
  else if contentType = ctFormula then 128
  else if contentType = ctReference then 384
  else chunkingMaxTokens

/-- `Section` of `semanticChunker.ts` (the `subsections` tree plays no role
in `chunkSection`, which only reads `title`, `content` and `type`, so the
recursive field is not needed here). -/
structure Section where
  title : Str
  level : ℕ
  content : Str
  type : Str
deriving Repr, DecidableEq

/-- `complexity` values of `ChunkMetadata`. -/
inductive Complexity where
  | low | medium | high
deriving Repr, DecidableEq

/-- `ChunkMetadata` of `semanticChunker.ts`.  `createdAt` (an ISO timestamp
string rendered from the clock) is modelled by the raw clock value. -/
structure ChunkMetadata where
  source : Str
  title : Str
  sectionTitle : Option Str
  keywords : List Str
  topics : List Str
  complexity : Complexity
  readability : ℚ
  language : Str
  createdAt : ℕ
deriving Repr, DecidableEq

/-- `ChunkPosition` of `semanticChunker.ts`. -/
structure ChunkPosition where
  documentIndex : ℕ
  sectionIndex : ℕ
  paragraphIndex : ℕ
  startOffset : ℕ
  endOffset : ℕ
deriving Repr, DecidableEq

/-- `ChunkRelationship` of `semanticChunker.ts`. -/
structure ChunkRelationship where
  type : Str
  targetChunkId : Str
  strength : ℚ
deriving Repr, DecidableEq

/-- `SemanticChunk` of `semanticChunker.ts`. -/
structure SemanticChunk where
  id : Str
  content : Str
  tokens : ℕ
  contentType : Str
  importance : ℚ
  position : ChunkPosition
  metadata : ChunkMetadata
  relationships : List ChunkRelationship
deriving Repr, DecidableEq

/-- One line of the multiline regexes of `classifyContent`: does some line
start (after the `\s*`) satisfy `P`?  The greedy `\s*` after a `^` anchor may
run across newlines, but any match it produces that way is also produced
from the line start closest to the matched marker, so scanning each line
start is equivalent. -/
def anyLineStartAux (P : Str → Bool) : Str → Bool
  | [] => false
  | c :: rest => (if c = '\n' then P rest else false) || anyLineStartAux P rest

def anyLineStart (P : Str → Bool) (s : Str) : Bool :=
  P s || anyLineStartAux P s

/-- `/^\s*[-*+]\s/m` tested from one line start. -/
def listMarkerHere (s : Str) : Bool :=
  match s.dropWhile isWs with
  | c :: d :: _ => (c = '-' || c = '*' || c = '+') && isWs d
  | _ => false

/-- `/^\s*\|.*\|/m` tested from one line start (`.` does not match `\n`). -/
def tableMarkerHere (s : Str) : Bool :=
  match s.dropWhile isWs with
  | c :: rest => c = '|' && (rest.takeWhile (fun d => d ≠ '\n')).any (fun d => d = '|')
  | [] => false

/-- `/^\s*>/m` tested from one line start. -/
def quoteMarkerHere (s : Str) : Bool :=
  match s.dropWhile isWs with
  | c :: _ => c = '>'
  | [] => false

/-- `` /`[^`]+`/ `` : a backtick, at least one non-backtick, a backtick. -/
def hasInlineCode : Str → Bool
  | [] => false
  | c :: rest =>
    (if c = '`' then
      let t := rest.takeWhile (fun d => d ≠ '`')
      !t.isEmpty && (rest.drop t.length).head? = some '`'
     else false) || hasInlineCode rest

/-- `/\$.*\$/` : two dollar signs on one line. -/
def hasDollarPair : Str → Bool
  | [] => false
  | c :: rest =>
    (if c = '$' then (rest.takeWhile (fun d => d ≠ '\n')).any (fun d => d = '$')
     else false) || hasDollarPair rest

/-- `/\\\(.*\\\)/` : `\(` followed by `\)` on the same line. -/
def hasParenFormula : Str → Bool
  | [] => false
  | c :: rest =>
    (match c, rest with
     | '\\', '(' :: tail =>
       decide (['\\', ')'] <:+: tail.takeWhile (fun d => d ≠ '\n'))
     | _, _ => false) || hasParenFormula rest

/-- `/^#+\s/` : one or more leading `#` followed by whitespace. -/
def headingMarker (s : Str) : Bool :=
  match s with
  | '#' :: _ =>
    match s.dropWhile (fun c => c = '#') with
    | d :: _ => isWs d
    | [] => false
  | _ => false

/-- `classifyContent` of `semanticChunker.ts` (the regex tests in source
order). -/
def classifyContent (content : Str) : Str :=
  if headingMarker content then ctHeading
  else if anyLineStart listMarkerHere content then ctList
  else if anyLineStart tableMarkerHere content then ctTable
  else if ['`', '`', '`'] <:+: content ∨ hasInlineCode content then ctCode
  else if anyLineStart quoteMarkerHere content then ctQuote
  else if hasDollarPair content ∨ hasParenFormula content then ctFormula
  else ctParagraph

/-- Case-insensitive containment of a key phrase:
`content.toLowerCase().includes(phrase)`. -/
def lowerIncludes (phrase : Str) (content : Str) : Bool :=
  decide (phrase <:+: content.map Char.toLower)

/-- `calculateImportance` of `semanticChunker.ts` (`IMPORTANCE_LEVELS`:
CRITICAL 1.0, HIGH 0.8, MEDIUM 0.6, MINIMAL 0.2). -/
def calculateImportance (content : Str) (sec : Section) : ℚ :=
  let imp0 : ℚ := 0.6
  let imp1 := if sec.type = ctHeading then 0.8 else imp0
  let keyPhrases : List Str :=
    ["important".toList, "key".toList, "critical".toList, "essential".toList,
     "main".toList, "primary".toList]
  let imp2 :=
    if keyPhrases.any (fun p => lowerIncludes p content) then
      min (imp1 + 0.2) 1.0
    else imp1
  if content.length < 100 then max (imp2 - 0.2) 0.2 else imp2

/-- First-occurrence deduplication (JS object keys preserve first-insertion
order). -/
def firstOccurs [DecidableEq α] (seen : List α) : List α → List α
  | [] => []
  | x :: xs =>
    if x ∈ seen then firstOccurs seen xs
    else x :: firstOccurs (x :: seen) xs

/-- Stable insertion producing a non-increasing order by `key`: the new
element `x` (earlier in the original list) is placed before the first
element whose key is not larger, exactly reproducing a stable JS
`sort((a, b) => key b - key a)`. -/
def insertDescBy (key : α → ℚ) (x : α) : List α → List α
  | [] => [x]
  | y :: ys =>
    if key x < key y then y :: insertDescBy key x ys else x :: y :: ys

/-- Stable sort, non-increasing by `key` (JS `Array.prototype.sort` with
comparator `(a, b) => key b - key a`; the JS sort is stable, and a stable
sort's output is unique, so this insertion sort computes it). -/
def sortDescBy (key : α → ℚ) : List α → List α
  | [] => []
  | x :: xs => insertDescBy key x (sortDescBy key xs)

/-- `extractKeywords` of `semanticChunker.ts`: lowercase, replace
`/[^\w\s]/g` with a space, split on `/\s+/`, keep words longer than three
characters, order by descending frequency (first occurrence wins ties), and
keep the top ten. -/
def extractKeywords (content : Str) : List Str :=
  let cleaned := (content.map Char.toLower).map
    (fun c => if !isWordChar c && !isWs c then ' ' else c)
  let ws := (splitWsJS cleaned).filter (fun w => w.length > 3)
  let entries := (firstOccurs [] ws).map (fun w => (w, (ws.count w : ℚ)))
  ((sortDescBy Prod.snd entries).take 10).map Prod.fst

/-- Word tokens of a string: maximal runs of `\w` characters after
lowercasing.  `/\b(w₁|…|wₙ)\b/i.test(content)` holds exactly when one of the
lowercased alternatives appears as such a token. -/
def wordTokens (content : Str) : List Str :=
  let cleaned := (content.map Char.toLower).map
    (fun c => if isWordChar c then c else ' ')
  (splitWsJS cleaned).filter (fun w => ¬w.isEmpty)

/-- `extractTopics` of `semanticChunker.ts`. -/
def extractTopics (content : Str) : List Str :=
  let toks := wordTokens content
  let hasAny (l : List Str) : Bool := l.any (fun w => toks.contains w)
  (if hasAny ["api".toList, "database".toList, "server".toList,
      "client".toList, "authentication".toList] then ["technical".toList] else []) ++
  (if hasAny ["strategy".toList, "business".toList, "market".toList,
      "customer".toList, "revenue".toList] then ["business".toList] else []) ++
  (if hasAny ["process".toList, "workflow".toList, "procedure".toList,
      "steps".toList, "method".toList] then ["process".toList] else [])

/-- `assessComplexity` of `semanticChunker.ts` (note: the sentence and word
counts here are raw `split` lengths, without filtering). -/
def assessComplexity (content : Str) : Complexity :=
  let sentences : ℚ := (splitPunctJS content).length
  let words : ℚ := (splitWsJS content).length
  let avg := words / sentences
  if avg > 20 then Complexity.high
  else if avg > 12 then Complexity.medium
  else Complexity.low

/-- Loop of the `/[aeiou]{2,}/g → 'a'` replacement of `countSyllables`
(`skip` counts run characters still to be consumed). -/
def collapseVowelRunsGo (isV : Char → Bool) (skip : ℕ) : Str → Str
  | [] => []
  | c :: rest =>
    match skip with
    | k + 1 => collapseVowelRunsGo isV k rest
    | 0 =>
      if isV c then
        let run := rest.takeWhile isV
        (if run.length + 1 ≥ 2 then ['a'] else [c]) ++
          collapseVowelRunsGo isV run.length rest
      else c :: collapseVowelRunsGo isV 0 rest

def isVowel (c : Char) : Bool :=
  c = 'a' || c = 'e' || c = 'i' || c = 'o' || c = 'u'

def isLowerAlpha (c : Char) : Bool := 'a' ≤ c && c ≤ 'z'

/-- `countSyllables` of `semanticChunker.ts`: lowercase, strip `[^a-z]`,
collapse `/[aeiou]{2,}/` runs to a single `'a'`, strip consonants, take the
length, with a floor of one (`|| 1`). -/
def countSyllables (text : Str) : ℕ :=
  let letters := (text.map Char.toLower).filter isLowerAlpha
  let collapsed := collapseVowelRunsGo isVowel 0 letters
  let n := (collapsed.filter isVowel).length
  if n = 0 then 1 else n

/-- `calculateReadability` of `semanticChunker.ts` (Flesch-style score,
clamped to `[0, 100]`). -/
def calculateReadability (content : Str) : ℚ :=
  let sentences : ℚ := (splitPunctJS content).length
  let words : ℚ := (splitWsJS content).length
  let syllables : ℚ := countSyllables content
  let score := 206.835 - 1.015 * (words / sentences) - 84.6 * (syllables / words)
  max 0 (min 100 score)

/-- `createChunk` of `semanticChunker.ts`, at the default user metadata
`{}` with which the pipeline invokes the chunker (so `metadata.title`
defaults to `'Untitled'` and no computed field is overridden by the spread).
`Date.now()` is the parameter `now`. -/
def createChunk (now : ℕ) (content source : Str) (sec : Section)
    (sectionIndex paragraphIndex chunkIndex : ℕ) : SemanticChunk :=
  { id := "chunk_".toList ++ (toString chunkIndex).toList ++ "_".toList ++
      (toString now).toList
    content := content
    tokens := estimateTokenCount content
    contentType := classifyContent content
    importance := calculateImportance content sec
    position :=
      { documentIndex := 0, sectionIndex := sectionIndex
        paragraphIndex := paragraphIndex, startOffset := 0
        endOffset := content.length }
    metadata :=
      { source := source, title := "Untitled".toList
        sectionTitle := some sec.title
        keywords := extractKeywords content
        topics := extractTopics content
        complexity := assessComplexity content
        readability := calculateReadability content
        language := "en".toList, createdAt := now }
    relationships := [] }

/-- Loop of `chunkSection`: accumulated `chunks`, the current buffer
`current` with its running token count `curTok`, and the paragraph index. -/
def chunkSectionGo (now : ℕ) (source : Str) (sec : Section)
    (sectionIndex startChunkIndex : ℕ) (chunks : List SemanticChunk)
    (current : Str) (curTok paraIdx : ℕ) : List Str → List SemanticChunk
  | [] =>
    if (trimJS current).isEmpty then chunks
    else
      chunks ++ [createChunk now (trimJS current) source sec sectionIndex
        paraIdx (startChunkIndex + chunks.length)]
  | p :: ps =>
    let pt := estimateTokenCount p
    let opt := getOptimalChunkSize sec.type
    if curTok + pt > opt ∧ ¬current.isEmpty then
      let chunks' := chunks ++ [createChunk now (trimJS current) source sec
        sectionIndex paraIdx (startChunkIndex + chunks.length)]
      chunkSectionGo now source sec sectionIndex startChunkIndex chunks'
        p pt (paraIdx + 1) ps
    else
      chunkSectionGo now source sec sectionIndex startChunkIndex chunks
        (if current.isEmpty then p else current ++ '\n' :: '\n' :: p)
        (curTok + pt) (paraIdx + 1) ps

/-- `SemanticChunker.chunkSection`. -/
def chunkSection (now : ℕ) (sec : Section) (source : Str)
    (sectionIndex startChunkIndex : ℕ) : List SemanticChunk :=
  let content := trimJS sec.content
  if content.isEmpty then []
  else
    let paragraphs := (splitParagraphsJS content).filter
      (fun p => !(trimJS p).isEmpty)
    chunkSectionGo now source sec sectionIndex startChunkIndex [] [] 0 0
      paragraphs

/-! ### `OpenAIEmbeddingService` (`src/utils/ragProcessor.ts`) -/

def isUpper (c : Char) : Bool := 'A' ≤ c && c ≤ 'Z'

def isDigitCh (c : Char) : Bool := '0' ≤ c && c ≤ '9'

/-- Is the head of `s` a `\w` character?  (`\b` holds at a position exactly
when one side is a `\w` character and the other is not or is the string
edge.) -/
def wordCharHead (s : Str) : Bool :=
  match s with
  | d :: _ => isWordChar d
  | [] => false

/-- Matches of `/\b[A-Z][a-z]+ [A-Z][a-z]+\b/g` (person names).  `prevWord`
says whether the character before the scan point is a `\w` character; each
step consumes at least one character, so a fuel of the string length
suffices. -/
def personsGo (fuel : ℕ) (prevWord : Bool) (s : Str) : List Str :=
  match fuel, s with
  | 0, _ => []
  | _, [] => []
  | f + 1, c :: rest =>
    if !prevWord && isUpper c then
      let l1 := rest.takeWhile isLowerAlpha
      let after1 := rest.drop l1.length
      match l1.length, after1 with
      | _ + 1, ' ' :: c2 :: rest2 =>
        if isUpper c2 then
          let l2 := rest2.takeWhile isLowerAlpha
          let after2 := rest2.drop l2.length
          if l2.length ≥ 1 && !wordCharHead after2 then
            (c :: l1 ++ ' ' :: c2 :: l2) :: personsGo f true after2
          else personsGo f (isWordChar c) rest
        else personsGo f (isWordChar c) rest
      | _, _ => personsGo f (isWordChar c) rest
    else personsGo f (isWordChar c) rest

/-- Matches of `/\b[A-Z]{2,}\b/g` (acronyms): maximal uppercase runs of
length at least two with no `\w` character adjacent on either side. -/
def acronymsGo (fuel : ℕ) (prevWord : Bool) (s : Str) : List Str :=
  match fuel, s with
  | 0, _ => []
  | _, [] => []
  | f + 1, c :: rest =>
    if !prevWord && isUpper c then
      let run := rest.takeWhile isUpper
      let after := rest.drop run.length
      if run.length + 1 ≥ 2 && !wordCharHead after then
        (c :: run) :: acronymsGo f true after
      else acronymsGo f (isWordChar c) rest
    else acronymsGo f (isWordChar c) rest

/-- Matches of `/\b\d{4}\b/g` (years): maximal digit runs of length exactly
four with no `\w` character adjacent on either side. -/
def yearsGo (fuel : ℕ) (prevWord : Bool) (s : Str) : List Str :=
  match fuel, s with
  | 0, _ => []
  | _, [] => []
  | f + 1, c :: rest =>
    if !prevWord && isDigitCh c then
      let run := rest.takeWhile isDigitCh
      let after := rest.drop run.length
      if run.length + 1 = 4 && !wordCharHead after then
        (c :: run) :: yearsGo f true after
      else yearsGo f (isWordChar c) rest
    else yearsGo f (isWordChar c) rest

/-- The greedy `(?:,\d{3})*` groups of the money pattern. -/
def moneyGroups : Str → List Str
  | ',' :: a :: b :: c :: t =>
    if isDigitCh a && isDigitCh b && isDigitCh c then
      (',' :: a :: b :: [c]) :: moneyGroups t
    else []
  | _ => []

/-- Matches of `/\$\d+(?:,\d{3})*(?:\.\d{2})?\b/g` (money).  Backtracking of
the trailing optional cents group and of the last thousands group against
the final `\b` is reproduced: dropping the cents group always restores the
boundary (the next character is then `'.'`), and dropping the last
thousands group restores it when further groups remain (next character
`','`); with no groups left the boundary after `\d+` must hold on its
own. -/
def moneyGo (fuel : ℕ) (s : Str) : List Str :=
  match fuel, s with
  | 0, _ => []
  | _, [] => []
  | f + 1, c :: rest =>
    if c = '$' then
      let d1 := rest.takeWhile isDigitCh
      if d1.isEmpty then moneyGo f rest
      else
        let afterD := rest.drop d1.length
        let gs := moneyGroups afterD
        let afterG := afterD.drop (4 * gs.length)
        match afterG with
        | '.' :: a :: b :: t =>
          if isDigitCh a && isDigitCh b && !wordCharHead t then
            ('$' :: d1 ++ gs.flatten ++ '.' :: a :: [b]) :: moneyGo f t
          else ('$' :: d1 ++ gs.flatten) :: moneyGo f afterG
        | _ =>
          if !wordCharHead afterG then
            ('$' :: d1 ++ gs.flatten) :: moneyGo f afterG
          else
            match gs.getLast? with
            | some g => ('$' :: d1 ++ (gs.dropLast).flatten) :: moneyGo f (g ++ afterG)
            | none => moneyGo f rest
    else moneyGo f rest

/-- `extractEntities` of the embedding service: the four global patterns in
source order, dedupe preserving first occurrence (`[...new Set(es)]`), keep
ten. -/
def extractEntities (text : Str) : List Str :=
  let es := personsGo text.length false text ++ acronymsGo text.length false text
    ++ yearsGo text.length false text ++ moneyGo text.length text
  (firstOccurs [] es).take 10

/-- `analyzeSentiment` of the embedding service. -/
def analyzeSentiment (text : Str) : ℚ :=
  let positiveWords : List Str :=
    ["good".toList, "great".toList, "excellent".toList, "positive".toList,
     "success".toList, "effective".toList]
  let negativeWords : List Str :=
    ["bad".toList, "poor".toList, "negative".toList, "failure".toList,
     "problem".toList, "issue".toList]
  let words := splitWsJS (text.map Char.toLower)
  let p := (words.filter (fun w => positiveWords.contains w)).length
  let n := (words.filter (fun w => negativeWords.contains w)).length
  if p + n = 0 then 0 else ((p : ℚ) - (n : ℚ)) / ((p : ℚ) + (n : ℚ))

/-- Is the head of `s` a whitespace character? -/
def wsHead (s : Str) : Bool :=
  match s with
  | d :: _ => isWs d
  | [] => false

/-- `detectHeaderLevel`: the length of the leading `#` run when it is
followed by whitespace (`/^(#+)\s/`), else `1`. -/
def detectHeaderLevel (text : Str) : ℕ :=
  let run := text.takeWhile (fun c => c = '#')
  if run.length ≥ 1 ∧ wsHead (text.drop run.length) then run.length else 1

/-- `EmbeddingOptions` of the embedding service. -/
structure EmbeddingOptions where
  model : Str
  dimensions : ℕ
  batchSize : ℕ
  maxRetries : ℕ
  retryDelay : ℚ
  qualityThreshold : ℚ
  optimizeForRetrieval : Bool
  includeMetadata : Bool
deriving Repr, DecidableEq

/-- The constructor defaults (`EMBEDDING_CONFIG` plus the literal
`qualityThreshold: 0.7` etc.). -/
def defaultEmbeddingOptions : EmbeddingOptions :=
  { model := "text-embedding-3-small".toList, dimensions := 1536
    batchSize := 50, maxRetries := 3, retryDelay := 1000
    qualityThreshold := 0.7, optimizeForRetrieval := true
    includeMetadata := true }

/-- `EMBEDDING_CONFIG.maxTokensPerChunk`. -/
def embeddingMaxTokensPerChunk : ℕ := 512

/-- `EmbeddingQuality`. -/
structure EmbeddingQuality where
  textQuality : ℚ
  semanticCoherence : ℚ
  informationDensity : ℚ
  uniqueness : ℚ
  retrievalOptimization : ℚ
  overallScore : ℚ
deriving Repr, DecidableEq

/-- The `position` object of `EmbeddingMetadata`. -/
structure EmbPosition where
  documentIndex : ℕ
  sectionIndex : ℕ
  paragraphIndex : ℕ
deriving Repr, DecidableEq

/-- The `semantics` object of `EmbeddingMetadata`. -/
structure EmbSemantics where
  keywords : List Str
  topics : List Str
  entities : List Str
  sentiment : ℚ
deriving Repr, DecidableEq

/-- The `structure` object of `EmbeddingMetadata`. -/
structure EmbStructure where
  isHeader : Bool
  headerLevel : Option ℕ
  listItem : Bool
  tableCell : Bool
deriving Repr, DecidableEq

/-- The `relationships` object of `EmbeddingMetadata`. -/
structure EmbRelationships where
  parentChunk : Option Str
  childChunks : List Str
  siblingChunks : List Str
  references : List Str
deriving Repr, DecidableEq

/-- The `processing` object of `EmbeddingMetadata` (`timestamp`, an ISO
string rendered from the clock, is modelled by the raw clock value). -/
structure EmbProcessing where
  model : Str
  timestamp : ℕ
  version : Str
  confidence : ℚ
deriving Repr, DecidableEq

/-- `EmbeddingMetadata`. -/
structure EmbeddingMetadata where
  chunkId : Str
  contentType : Str
  importance : ℚ
  position : EmbPosition
  semantics : EmbSemantics
  structureInfo : EmbStructure
  relationships : EmbRelationships
  processing : EmbProcessing
deriving Repr, DecidableEq

/-- `EnhancedEmbedding`. -/
structure EnhancedEmbedding where
  id : Str
  embedding : List ℚ
  text : Str
  tokens : ℕ
  source : Str
  metadata : EmbeddingMetadata
  quality : EmbeddingQuality
deriving Repr, DecidableEq

/-- The truncation loop of `optimizeTextForEmbedding` (a `break` ends the
whole loop). -/
def truncGo (maxT : ℕ) (acc : Str) (tok : ℕ) : List Str → Str
  | [] => acc
  | s :: ss =>
    let st := estimateTokenCount s
    if tok + st > maxT then acc
    else
      truncGo maxT
        (if acc.isEmpty then trimJS s else acc ++ '.' :: ' ' :: trimJS s)
        (tok + st) ss

/-- `optimizeTextForEmbedding` of the embedding service. -/
def optimizeTextForEmbedding (opts : EmbeddingOptions) (text : Str) : Str :=
  if !opts.optimizeForRetrieval then text
  else
    let optimized := trimJS (collapseWsJS text)
    if estimateTokenCount optimized > embeddingMaxTokensPerChunk then
      let t := truncGo embeddingMaxTokensPerChunk [] 0 (splitPunctJS optimized)
      if t.isEmpty then optimized.take (embeddingMaxTokensPerChunk * 4) else t
    else optimized

/-- `assessSemanticCoherence` (the `chunk.metadata.section` truthiness test
is false for a missing or empty string). -/
def assessSemanticCoherence (chunk : SemanticChunk) : ℚ :=
  let s0 : ℚ := 0.7
  let s1 := if chunk.contentType = ctHeading then s0 + 0.2 else s0
  let s2 :=
    if (match chunk.metadata.sectionTitle with
        | some t => !t.isEmpty
        | none => false) then s1 + 0.1
    else s1
  min 1.0 (s2 + chunk.importance * 0.2)

/-- `assessInformationDensity`. -/
def assessInformationDensity (text : Str) : ℚ :=
  let words := splitWsJS text
  let uniq := (firstOccurs [] (words.map (fun w => w.map Char.toLower))).length
  min 1.0 ((uniq : ℚ) / (words.length : ℚ) * 2)

/-- `assessUniqueness`.  (On the empty string the model yields `0` where JS
float arithmetic yields `NaN`; no claim depends on the quality of an empty
text.) -/
def assessUniqueness (text : Str) : ℚ :=
  let uniqueChars := (firstOccurs [] (text.map Char.toLower)).length
  min 1.0 ((uniqueChars : ℚ) / ((min text.length 50 : ℕ) : ℚ))

/-- `calculateEmbeddingQuality` of the embedding service (the `embedding`
argument is accepted and ignored, as in the source). -/
def calculateEmbeddingQuality (opts : EmbeddingOptions) (chunk : SemanticChunk)
    (_embedding : List ℚ) (optimizedText : Str) : EmbeddingQuality :=
  let textQuality :=
    min 1.0 ((chunk.tokens : ℚ) / (embeddingMaxTokensPerChunk : ℚ))
  let semanticCoherence := assessSemanticCoherence chunk
  let informationDensity := assessInformationDensity optimizedText
  let uniqueness := assessUniqueness optimizedText
  let retrievalOptimization : ℚ := if opts.optimizeForRetrieval then 0.9 else 0.7
  { textQuality := textQuality
    semanticCoherence := semanticCoherence
    informationDensity := informationDensity
    uniqueness := uniqueness
    retrievalOptimization := retrievalOptimization
    overallScore :=
      textQuality * 0.2 + semanticCoherence * 0.25 + informationDensity * 0.25 +
        uniqueness * 0.15 + retrievalOptimization * 0.15 }

/-- `generateEmbeddingMetadata`. -/
def generateEmbeddingMetadata (opts : EmbeddingOptions) (now : ℕ)
    (chunk : SemanticChunk) : EmbeddingMetadata :=
  { chunkId := chunk.id
    contentType := chunk.contentType
    importance := chunk.importance
    position :=
      { documentIndex := chunk.position.documentIndex
        sectionIndex := chunk.position.sectionIndex
        paragraphIndex := chunk.position.paragraphIndex }
    semantics :=
      { keywords := chunk.metadata.keywords
        topics := chunk.metadata.topics
        entities := extractEntities chunk.content
        sentiment := analyzeSentiment chunk.content }
    structureInfo :=
      { isHeader := chunk.contentType = ctHeading
        headerLevel :=
          if chunk.contentType = ctHeading then
            some (detectHeaderLevel chunk.content)
          else none
        listItem := listMarkerHere chunk.content
        tableCell := chunk.contentType = ctTable }
    relationships :=
      { parentChunk :=
          ((chunk.relationships.find? (fun r => r.type = "parent".toList)).map
            (fun r => r.targetChunkId))
        childChunks :=
          (chunk.relationships.filter (fun r => r.type = "child".toList)).map
            (fun r => r.targetChunkId)
        siblingChunks :=
          (chunk.relationships.filter (fun r => r.type = "sibling".toList)).map
            (fun r => r.targetChunkId)
        references :=
          (chunk.relationships.filter (fun r => r.type = "reference".toList)).map
            (fun r => r.targetChunkId) }
    processing :=
      { model := opts.model, timestamp := now, version := "1.0.0".toList
        confidence := 0.95 } }

/-- `createEnhancedEmbedding`. -/
def createEnhancedEmbedding (opts : EmbeddingOptions) (now : ℕ)
    (chunk : SemanticChunk) (embedding : List ℚ) (optimizedText : Str) :
    EnhancedEmbedding :=
  { id := "emb_".toList ++ chunk.id ++ "_".toList ++ (toString now).toList
    embedding := embedding
    text := optimizedText
    tokens := estimateTokenCount optimizedText
    source := chunk.metadata.source
    metadata := generateEmbeddingMetadata opts now chunk
    quality := calculateEmbeddingQuality opts chunk embedding optimizedText }

/-- One call of the embeddings endpoint, as observed by the service: either
a failure carrying the provider's error message, or the response `data`
array of vectors together with `usage.total_tokens` (the `|| 0` default is
folded into the number).  A per-chunk behaviour is indexed by the attempt
number. -/
abbrev EmbedCall := Except Str (List (List ℚ) × ℕ)

/-- One attempt of `generateSingleEmbedding` (the body of its `try`): an
empty response `data` array is the thrown `'No embedding data received'`,
which the `catch` treats like any other failure. -/
def singleAttempt (opts : EmbeddingOptions) (now : ℕ) (chunk : SemanticChunk)
    (api : ℕ → EmbedCall) (retryCount : ℕ) :
    Except Str (EnhancedEmbedding × ℕ) :=
  match api retryCount with
  | Except.error e => Except.error e
  | Except.ok (data, toks) =>
    match data.head? with
    | none => Except.error "No embedding data received".toList
    | some v =>
      Except.ok
        (createEnhancedEmbedding opts now chunk v
          (optimizeTextForEmbedding opts chunk.content), toks)

/-- The retry loop of `generateSingleEmbedding`, structurally recursive on
`fuel` (each recursive self-call increments `retryCount`, so a fuel of
`maxRetries + 1 - retryCount` is never exhausted; at fuel `0` the model
returns the attempt's outcome directly, a state the guarded recursion
cannot reach). -/
def generateSingleEmbeddingGo (opts : EmbeddingOptions) (now : ℕ)
    (chunk : SemanticChunk) (api : ℕ → EmbedCall) :
    ℕ → ℕ → Except Str (EnhancedEmbedding × ℕ) × List ℚ
  | 0, retryCount => (singleAttempt opts now chunk api retryCount, [])
  | fuel + 1, retryCount =>
    match singleAttempt opts now chunk api retryCount with
    | Except.ok r => (Except.ok r, [])
    | Except.error e =>
      if retryCount < opts.maxRetries then
        let r2 := generateSingleEmbeddingGo opts now chunk api fuel (retryCount + 1)
        (r2.1, opts.retryDelay * 2 ^ retryCount :: r2.2)
      else (Except.error e, [])

/-- `generateSingleEmbedding`: one attempt plus the exponential-backoff
retry loop.  The second component records the backoff delays passed to
`sleep` (`retryDelay * 2 ^ retryCount`). -/
def generateSingleEmbedding (opts : EmbeddingOptions) (now : ℕ)
    (chunk : SemanticChunk) (api : ℕ → EmbedCall) (retryCount : ℕ) :
    Except Str (EnhancedEmbedding × ℕ) × List ℚ :=
  generateSingleEmbeddingGo opts now chunk api
    (opts.maxRetries + 1 - retryCount) retryCount

/-- The per-chunk fallback loop of `processBatch` (`single` gives each
chunk's per-attempt endpoint behaviour, keyed by the chunk id). -/
def processIndividually (opts : EmbeddingOptions) (now : ℕ)
    (single : Str → ℕ → EmbedCall) :
    List SemanticChunk → List EnhancedEmbedding × ℕ × List Str
  | [] => ([], 0, [])
  | c :: cs =>
    let r := generateSingleEmbedding opts now c (single c.id) 0
    let rest := processIndividually opts now single cs
    match r.1 with
    | Except.ok (e, t) => (e :: rest.1, t + rest.2.1, rest.2.2)
    | Except.error msg =>
      (rest.1, rest.2.1,
        ("Individual embedding failed for chunk ".toList ++ c.id ++
          ": ".toList ++ msg) :: rest.2.2)

/-- The result record of `processBatch`. -/
structure BatchOut where
  embeddings : List EnhancedEmbedding
  tokensUsed : ℕ
  errors : List Str
deriving Repr, DecidableEq

/-- The quality-gated result loop of the batch path of `processBatch`. -/
def batchLoop (opts : EmbeddingOptions) (now : ℕ) :
    List (SemanticChunk × List ℚ) → List EnhancedEmbedding × List Str
  | [] => ([], [])
  | (c, v) :: rest =>
    let e := createEnhancedEmbedding opts now c v
      (optimizeTextForEmbedding opts c.content)
    let r := batchLoop opts now rest
    if e.quality.overallScore ≥ opts.qualityThreshold then (e :: r.1, r.2)
    else (r.1, ("Low quality embedding for chunk ".toList ++ c.id) :: r.2)

/-- `processBatch`.  A failed batch request — as well as a successful one
whose `data` length mismatches the input (the `throw` sits inside the same
`try`) — falls back to individual per-chunk requests. -/
def processBatch (opts : EmbeddingOptions) (now : ℕ) (batchApi : EmbedCall)
    (single : Str → ℕ → EmbedCall) (chunks : List SemanticChunk) : BatchOut :=
  match batchApi with
  | Except.ok (vecs, toks) =>
    if vecs.length = chunks.length then
      let r := batchLoop opts now (chunks.zip vecs)
      { embeddings := r.1, tokensUsed := toks, errors := r.2 }
    else
      let r := processIndividually opts now single chunks
      { embeddings := r.1, tokensUsed := r.2.1, errors := r.2.2 }
  | Except.error _ =>
    let r := processIndividually opts now single chunks
    { embeddings := r.1, tokensUsed := r.2.1, errors := r.2.2 }

/-- Loop of `toBatches`, structurally recursive on `fuel` (each step drops
at least one element, so a fuel of the list length suffices). -/
def toBatchesGo (bs : ℕ) : ℕ → List α → List (List α)
  | _, [] => []
  | 0, _ :: _ => []
  | fuel + 1, x :: xs => (x :: xs).take bs :: toBatchesGo bs fuel ((x :: xs).drop bs)

/-- The batch slicing of `generateEmbeddings`
(`chunks.slice(i, i + batchSize)` with step `batchSize`; a zero batch size
would never terminate in the source and never occurs — the model's fuel
then runs out, yielding singleton slices of fuel-many steps at worst). -/
def toBatches (bs : ℕ) (l : List α) : List (List α) :=
  toBatchesGo bs l.length l

/-- The batch loop of `generateEmbeddings`; `batchApi` gives the endpoint
behaviour of each batch request by batch index.  (`processBatch` is total
in the model, so the surrounding `try/catch` is dead; the progress callback
and the rate-limiting sleep have no observable effect here.) -/
def genLoop (opts : EmbeddingOptions) (now : ℕ) (batchApi : ℕ → EmbedCall)
    (single : Str → ℕ → EmbedCall) : ℕ → List (List SemanticChunk) → BatchOut
  | _, [] => { embeddings := [], tokensUsed := 0, errors := [] }
  | i, b :: bs =>
    let r := processBatch opts now (batchApi i) single b
    let rest := genLoop opts now batchApi single (i + 1) bs
    { embeddings := r.embeddings ++ rest.embeddings
      tokensUsed := r.tokensUsed + rest.tokensUsed
      errors := r.errors ++ rest.errors }

/-- `EmbeddingStatistics`. -/
structure EmbeddingStatistics where
  totalChunks : ℕ
  successfulEmbeddings : ℕ
  failedEmbeddings : ℤ
  totalTokensUsed : ℕ
  estimatedCost : ℚ
  averageTokensPerChunk : ℚ
  processingTimeMs : ℕ
  averageQuality : ℚ
  highQualityCount : ℕ
  lowQualityCount : ℕ
deriving Repr, DecidableEq

/-- `calculateCost`. -/
def calculateCost (tokenCount : ℕ) : ℚ := ((tokenCount : ℚ) / 1000000) * 0.02

/-- `calculateStatistics` (the `qualityMetrics` object is flattened; the
`|| 0` on the average applies when there are no embeddings). -/
def calculateStatistics (totalChunks : ℕ) (embeddings : List EnhancedEmbedding)
    (totalTokensUsed : ℕ) (processingTimeMs : ℕ) : EmbeddingStatistics :=
  let successfulEmbeddings := embeddings.length
  let qualityScores := embeddings.map (fun e => e.quality.overallScore)
  { totalChunks := totalChunks
    successfulEmbeddings := successfulEmbeddings
    failedEmbeddings := (totalChunks : ℤ) - (successfulEmbeddings : ℤ)
    totalTokensUsed := totalTokensUsed
    estimatedCost := calculateCost totalTokensUsed
    averageTokensPerChunk :=
      if successfulEmbeddings > 0 then
        (totalTokensUsed : ℚ) / (successfulEmbeddings : ℚ)
      else 0
    processingTimeMs := processingTimeMs
    averageQuality :=
      if qualityScores.isEmpty then 0
      else qualityScores.sum / (qualityScores.length : ℚ)
    highQualityCount := (qualityScores.filter (fun q => q ≥ 0.8)).length
    lowQualityCount := (qualityScores.filter (fun q => q < 0.6)).length }

/-- `BatchEmbeddingResult`. -/
structure BatchEmbeddingResult where
  success : Bool
  embeddings : List EnhancedEmbedding
  errors : List Str
  statistics : EmbeddingStatistics
deriving Repr, DecidableEq

/-- `generateEmbeddings` of `OpenAIEmbeddingService`. -/
def generateEmbeddings (opts : EmbeddingOptions) (now : ℕ)
    (batchApi : ℕ → EmbedCall) (single : Str → ℕ → EmbedCall)
    (elapsedMs : ℕ) (chunks : List SemanticChunk) : BatchEmbeddingResult :=
  let r := genLoop opts now batchApi single 0 (toBatches opts.batchSize chunks)
  { success := r.embeddings.length > 0
    embeddings := r.embeddings
    errors := r.errors
    statistics :=
      calculateStatistics chunks.length r.embeddings r.tokensUsed elapsedMs }

/-! ### `SupabaseVectorService` (`src/utils/ragProcessor.ts`) -/

/-- JS `ToInt32` (the effect of `x & x` and of `<<` on a JS number):
reduce modulo `2^32` into `[-2^31, 2^31)`. -/
def toInt32 (n : ℤ) : ℤ := ((n + 2 ^ 31) % 2 ^ 32) - 2 ^ 31

/-- One step of `hashContent`:
`hash = ((hash << 5) - hash) + charCode; hash = hash & hash`.  With `hash`
already a 32-bit integer, `hash << 5` is `ToInt32(32 * hash)`, the
subtraction and addition are exact in float range, and `hash & hash` is
`ToInt32`. -/
def hashStep (h : ℤ) (c : Char) : ℤ := toInt32 (toInt32 (32 * h) - h + c.toNat)

/-- `hashContent` of `SupabaseVectorService`.  The source returns
`hash.toString()`; decimal rendering of integers is injective, so the hash
is kept as the integer. -/
def hashContent (content : Str) : ℤ := content.foldl hashStep 0

/-- `DocumentMetadata` as produced by `convertToDocumentMetadata` (the
optional `subsection`/`pageNumber` fields are never set there and are
omitted; `section` is renamed `sectionField` since `section` is a Lean
keyword). -/
structure DocumentMetadata where
  fileName : Str
  fileType : Str
  fileSize : ℕ
  chunkId : Str
  contentType : Str
  importance : ℚ
  tokens : ℕ
  sectionField : Option Str
  position : EmbPosition
  keywords : List Str
  topics : List Str
  entities : List Str
  sentiment : ℚ
  textQuality : ℚ
  semanticCoherence : ℚ
  informationDensity : ℚ
  overallQuality : ℚ
  model : Str
  timestamp : ℕ
  version : Str
deriving Repr, DecidableEq

/-- A row to insert (`Omit<VectorDocument, 'id' | 'created_at'>`). -/
structure VectorDoc where
  content : Str
  embedding : List ℚ
  source : Str
  metadata : DocumentMetadata
deriving Repr, DecidableEq

/-- `convertToDocumentMetadata`. -/
def convertToDocumentMetadata (e : EnhancedEmbedding) : DocumentMetadata :=
  { fileName := e.metadata.processing.model
    fileType := e.metadata.contentType
    fileSize := e.tokens * 4
    chunkId := e.metadata.chunkId
    contentType := e.metadata.contentType
    importance := e.metadata.importance
    tokens := e.tokens
    sectionField := if e.metadata.structureInfo.isHeader then some e.text else none
    position := e.metadata.position
    keywords := e.metadata.semantics.keywords
    topics := e.metadata.semantics.topics
    entities := e.metadata.semantics.entities
    sentiment := e.metadata.semantics.sentiment
    textQuality := e.quality.textQuality
    semanticCoherence := e.quality.semanticCoherence
    informationDensity := e.quality.informationDensity
    overallQuality := e.quality.overallScore
    model := e.metadata.processing.model
    timestamp := e.metadata.processing.timestamp
    version := e.metadata.processing.version }

/-- Loop of `filterDuplicates` with the set of already-seen content
hashes. -/
def filterDupGo (seen : List ℤ) : List VectorDoc → List VectorDoc
  | [] => []
  | d :: ds =>
    let h := hashContent d.content
    if h ∈ seen then filterDupGo seen ds
    else d :: filterDupGo (h :: seen) ds

/-- `filterDuplicates` of `SupabaseVectorService`. -/
def filterDuplicates (documents : List VectorDoc) : List VectorDoc :=
  filterDupGo [] documents

/-- One observed behaviour of the Supabase
`insert(uniqueDocuments).select('id')` call: an error message, or the
returned `data` (`none` models a null `data` with no error). -/
abbrev InsertCall := List VectorDoc → Except Str (Option (List Str))

/-- The result record of `uploadBatch`. -/
structure UploadBatchOut where
  uploaded : ℕ
  failed : ℕ
  uploadedIds : List Str
  duplicatesSkipped : ℕ
  errors : List Str
deriving Repr, DecidableEq

/-- The database-format conversion at the top of `uploadBatch`. -/
def toVectorDocs (embeddings : List EnhancedEmbedding) : List VectorDoc :=
  embeddings.map (fun e =>
    { content := e.text, embedding := e.embedding, source := e.source
      metadata := convertToDocumentMetadata e })

/-- `uploadBatch` of `SupabaseVectorService`. -/
def uploadBatch (insert : InsertCall) (embeddings : List EnhancedEmbedding) :
    UploadBatchOut :=
  let documents := toVectorDocs embeddings
  let uniqueDocuments := filterDuplicates documents
  let duplicatesSkipped := documents.length - uniqueDocuments.length
  if uniqueDocuments.isEmpty then
    { uploaded := 0, failed := 0, uploadedIds := []
      duplicatesSkipped := duplicatesSkipped, errors := [] }
  else
    match insert uniqueDocuments with
    | Except.ok (some ids) =>
      { uploaded := ids.length, failed := 0, uploadedIds := ids
        duplicatesSkipped := duplicatesSkipped, errors := [] }
    | Except.ok none =>
      { uploaded := 0, failed := 0, uploadedIds := []
        duplicatesSkipped := duplicatesSkipped, errors := [] }
    | Except.error e =>
      { uploaded := 0, failed := embeddings.length, uploadedIds := []
        duplicatesSkipped := duplicatesSkipped, errors := [e] }

/-- `cosineSimilarity` of `SupabaseVectorService`.  `Math.sqrt` is the
float primitive, taken as the parameter `sqrt`; the two zero-result guards
do not depend on it. -/
def cosineSimilarity (sqrt : ℚ → ℚ) (a b : List ℚ) : ℚ :=
  if a.length ≠ b.length then 0
  else if (a.map (fun x => x * x)).sum = 0 ∨ (b.map (fun x => x * x)).sum = 0 then 0
  else ((a.zip b).map (fun p => p.1 * p.2)).sum /
    (sqrt ((a.map (fun x => x * x)).sum) * sqrt ((b.map (fun x => x * x)).sum))

/-- The metadata fields of a stored row that the search post-processing
reads (`metadata.importance`, `metadata.overallQuality`,
`metadata.contentType`); the row metadata is stored JSON, so the numeric
fields may be absent. -/
structure SRMetadata where
  importance : Option ℚ
  overallQuality : Option ℚ
  contentType : Str
deriving Repr, DecidableEq

/-- `SearchResult` (`created_at`, an ISO timestamp string, enters the
computation only through `new Date(x).getTime()` and is modelled by that
numeric value in milliseconds). -/
structure SearchResult where
  id : Str
  content : Str
  source : Str
  metadata : SRMetadata
  similarity : ℚ
  rank : ℕ
  relevanceScore : ℚ
  createdAt : ℚ
deriving Repr, DecidableEq

/-- `BoostFactors` (the `Record<string, number>` maps are association
lists). -/
structure BoostFactors where
  importance : ℚ
  recency : ℚ
  quality : ℚ
  contentType : List (Str × ℚ)
  source : List (Str × ℚ)
deriving Repr, DecidableEq

/-- `SearchOptions` (the `filters` member is never read by
`similaritySearch` and is omitted). -/
structure SearchOptions where
  limit : ℕ
  threshold : ℚ
  includeMetadata : Bool
  hybridSearch : Bool
  rerankResults : Bool
  diversityThreshold : ℚ
  boostFactors : BoostFactors
deriving Repr, DecidableEq

/-- JS truthiness of an optional number (`undefined` and `0` are falsy). -/
def truthyNum : Option ℚ → Bool
  | some v => v ≠ 0
  | none => false

/-- `boostFactors.xxx[key] || 1.0` — a missing entry, and a stored `0`
(falsy), both yield `1.0`. -/
def lookupOr1 (m : List (Str × ℚ)) (k : Str) : ℚ :=
  match m.find? (fun p => p.1 = k) with
  | some p => if p.2 = 0 then 1.0 else p.2
  | none => 1.0

/-- `rerankResults` of `SupabaseVectorService` (`now` is `Date.now()`). -/
def rerankResults (now : ℚ) (results : List SearchResult) : List SearchResult :=
  results.map (fun r =>
    let s0 := r.similarity
    let s1 := if truthyNum r.metadata.importance then
        s0 * (1 + (r.metadata.importance.getD 0) * 0.2)
      else s0
    let s2 := if truthyNum r.metadata.overallQuality then
        s1 * (1 + (r.metadata.overallQuality.getD 0) * 0.1)
      else s1
    let daysSinceCreation := (now - r.createdAt) / (1000 * 60 * 60 * 24)
    let s3 := if daysSinceCreation < 30 then s2 * 1.05 else s2
    { r with relevanceScore := s3 })

/-- `textSimilarity`: token-set Jaccard similarity of the lowercased
whitespace-split word sets. -/
def textSimilarity (text1 text2 : Str) : ℚ :=
  let words1 := (splitWsJS (text1.map Char.toLower)).toFinset
  let words2 := (splitWsJS (text2.map Char.toLower)).toFinset
  ((words1 ∩ words2).card : ℚ) / ((words1 ∪ words2).card : ℚ)

/-- Loop of `diversifyResults`: a candidate is kept when no
already-accepted result exceeds the similarity threshold. -/
def diversifyGo (threshold : ℚ) (acc : List SearchResult) :
    List SearchResult → List SearchResult
  | [] => acc
  | r :: rs =>
    if acc.all (fun e => ¬textSimilarity r.content e.content > threshold) then
      diversifyGo threshold (acc ++ [r]) rs
    else diversifyGo threshold acc rs

/-- `diversifyResults` of `SupabaseVectorService`. -/
def diversifyResults (results : List SearchResult) (threshold : ℚ) :
    List SearchResult :=
  diversifyGo threshold [] results

/-- `applyBoostFactors` of `SupabaseVectorService`. -/
def applyBoostFactors (results : List SearchResult) (bf : BoostFactors) :
    List SearchResult :=
  results.map (fun r =>
    let boost1 := 1.0 * lookupOr1 bf.contentType r.metadata.contentType
    let boost2 := boost1 * lookupOr1 bf.source r.source
    let boost3 := if truthyNum r.metadata.overallQuality then
        boost2 * (1 + ((r.metadata.overallQuality.getD 0) - 0.5) * bf.quality)
      else boost2
    { r with relevanceScore := r.relevanceScore * boost3 })

/-- The post-processing pipeline of `similaritySearch`: its input
`candidates` is whatever the candidate retrieval (`vectorSimilaritySearch`:
the `match_documents` RPC, or the client-side fallback) returned; the
quantification over all candidate lists covers every behaviour of that
external call.  The final sort is the stable JS sort with comparator
`(a, b) => b.relevanceScore - a.relevanceScore`, then `slice(0, limit)`. -/
def similaritySearch (now : ℚ) (candidates : List SearchResult)
    (opts : SearchOptions) : List SearchResult :=
  let r1 := if opts.rerankResults then rerankResults now candidates else candidates
  let r2 := if opts.diversityThreshold > 0 then
      diversifyResults r1 opts.diversityThreshold
    else r1
  let r3 := applyBoostFactors r2 opts.boostFactors
  (sortDescBy (fun r => r.relevanceScore) r3).take opts.limit

/-! ## Basic lemmas about the string primitives -/

theorem stripWs_append (a b : Str) : stripWs (a ++ b) = stripWs a ++ stripWs b :=
  List.filter_append a b

theorem stripWs_reverse (l : Str) : stripWs l.reverse = (stripWs l).reverse :=
  List.filter_reverse _ l

theorem stripWs_dropWhile_isWs (l : Str) :
    stripWs (l.dropWhile isWs) = stripWs l := by
  induction l with
  | nil => rfl
  | cons c rest ih =>
    by_cases h : isWs c
    · rw [List.dropWhile_cons, if_pos h, ih]
      simp [stripWs, h]
    · rw [List.dropWhile_cons, if_neg h]

theorem stripWs_trimJS (s : Str) : stripWs (trimJS s) = stripWs s := by
  unfold trimJS
  rw [stripWs_reverse, stripWs_dropWhile_isWs, stripWs_reverse,
    stripWs_dropWhile_isWs, List.reverse_reverse]

theorem stripWs_of_trimJS_empty {s : Str} (h : (trimJS s).isEmpty) :
    stripWs s = [] := by
  rw [← stripWs_trimJS]
  rw [List.isEmpty_iff] at h
  rw [h]
  rfl

theorem splitWsJS_ne_nil (s : Str) : splitWsJS s ≠ [] := by
  cases s with
  | nil => simp [splitWsJS]
  | cons c rest =>
    rw [splitWsJS.eq_def]
    simp only []
    by_cases h : isWs c
    · rw [if_pos h]
      cases rest with
      | nil => simp
      | cons d t =>
        by_cases hd : isWs d
        · simp only [hd, if_true]
          exact splitWsJS_ne_nil (d :: t)
        · simp [hd]
    · rw [if_neg h]
      cases hr : splitWsJS rest with
      | nil => exact absurd hr (splitWsJS_ne_nil rest)
      | cons p ps => simp

theorem splitWsJS_flatten (s : Str) : (splitWsJS s).flatten = stripWs s := by
  induction s with
  | nil => rfl
  | cons c rest ih =>
    rw [splitWsJS.eq_def]
    simp only []
    by_cases h : isWs c
    · rw [if_pos h]
      have hs : stripWs (c :: rest) = stripWs rest := by simp [stripWs, h]
      cases rest with
      | nil => simp [splitWsJS, stripWs, h]
      | cons d t =>
        by_cases hd : isWs d
        · simp only [hd, if_true]
          rw [ih, hs]
        · simp only [hd, Bool.false_eq_true, if_false]
          rw [List.flatten_cons, hs, ← ih]
          simp
    · rw [if_neg h]
      have hs : stripWs (c :: rest) = c :: stripWs rest := by simp [stripWs, h]
      cases hr : splitWsJS rest with
      | nil => exact absurd hr (splitWsJS_ne_nil rest)
      | cons p ps =>
        rw [hs, ← ih, hr, List.flatten_cons, List.flatten_cons]
        simp

theorem splitWsJS_wsfree (s : Str) :
    ∀ p ∈ splitWsJS s, ∀ c ∈ p, isWs c = false := by
  induction s with
  | nil => intro p hp c hc; simp [splitWsJS] at hp; simp [hp] at hc
  | cons c rest ih =>
    intro p hp d hd
    rw [splitWsJS.eq_def] at hp
    simp only [] at hp
    by_cases h : isWs c
    · rw [if_pos h] at hp
      cases rest with
      | nil =>
        simp [splitWsJS] at hp
        simp [hp] at hd
      | cons e t =>
        by_cases he : isWs e
        · simp only [he, if_true] at hp
          exact ih p hp d hd
        · simp only [he, Bool.false_eq_true, if_false] at hp
          rcases List.mem_cons.mp hp with h1 | h1
          · simp [h1] at hd
          · exact ih p h1 d hd
    · rw [if_neg h] at hp
      cases hr : splitWsJS rest with
      | nil => exact absurd hr (splitWsJS_ne_nil rest)
      | cons q qs =>
        rw [hr] at hp
        rcases List.mem_cons.mp hp with h1 | h1
        · subst h1
          rcases List.mem_cons.mp hd with h2 | h2
          · subst h2; simpa using h
          · exact ih q (hr ▸ List.mem_cons_self q qs) d h2
        · exact ih p (hr ▸ List.mem_cons_of_mem q h1) d hd

/-! ## C9: `cosineSimilarity` guard clauses -/

/-- **C9** (confirmed).  `cosineSimilarity` is a total function of its two
vector arguments (the Lean embedding returns a rational for every input, in
particular it cannot throw), and it returns exactly `0` whenever the two
vectors have different lengths or either vector has zero norm — for every
square-root oracle modelling the float `Math.sqrt`. -/
theorem C9_cosine_total_guards (sqrt : ℚ → ℚ) (a b : List ℚ)
    (h : a.length ≠ b.length ∨ (a.map (fun x => x * x)).sum = 0 ∨
      (b.map (fun x => x * x)).sum = 0) :
    cosineSimilarity sqrt a b = 0 := by
  unfold cosineSimilarity
  split_ifs with h1 h2
  · rfl
  · rfl
  · rcases h with h | h | h
    · exact absurd h h1
    · exact absurd (Or.inl h) h2
    · exact absurd (Or.inr h) h2

/-- Witness for C9 at a concrete input: the zero query vector against a
stored vector yields similarity `0`. -/
theorem C9_cosine_total_guards_witness :
    cosineSimilarity (fun q => q) [0, 0] [1, 2] = 0 :=
  C9_cosine_total_guards (fun q => q) [0, 0] [1, 2] (Or.inr (Or.inl (by simp)))

/-! ## C10: `diversifyResults` is an order-preserving subsequence keeping
the top-ranked result -/

theorem diversifyGo_spec (t : ℚ) :
    ∀ (rest acc : List SearchResult),
      ∃ s, diversifyGo t acc rest = acc ++ s ∧ s.Sublist rest := by
  intro rest
  induction rest with
  | nil => intro acc; exact ⟨[], by simp [diversifyGo]⟩
  | cons r rs ih =>
    intro acc
    rw [diversifyGo]
    by_cases h :
      (acc.all fun e => decide ¬textSimilarity r.content e.content > t) = true
    · rw [if_pos h]
      obtain ⟨s, hs, hsub⟩ := ih (acc ++ [r])
      exact ⟨r :: s, by simpa using hs, hsub.cons₂ r⟩
    · rw [if_neg h]
      obtain ⟨s, hs, hsub⟩ := ih acc
      exact ⟨s, hs, hsub.cons r⟩

theorem diversifyResults_sublist (l : List SearchResult) (t : ℚ) :
    (diversifyResults l t).Sublist l := by
  obtain ⟨s, hs, hsub⟩ := diversifyGo_spec t l []
  unfold diversifyResults
  rw [hs]
  simpa using hsub

/-- **C10** (confirmed).  For every ranked list and every threshold,
`diversifyResults` returns an order-preserving subsequence of its input,
and on a non-empty input the first (top-ranked) result is always kept:
diversification only drops lower-ranked candidates. -/
theorem C10_diversify_subsequence (l : List SearchResult) (t : ℚ) :
    (diversifyResults l t).Sublist l ∧
    (∀ x xs, l = x :: xs → ∃ s, diversifyResults l t = x :: s) := by
  refine ⟨diversifyResults_sublist l t, ?_⟩
  intro x xs hl
  subst hl
  unfold diversifyResults
  rw [diversifyGo]
  simp only [List.all_nil, if_true]
  obtain ⟨s, hs, _⟩ := diversifyGo_spec t xs [x]
  exact ⟨s, by simpa using hs⟩

/-- Witness for C10 at a concrete input. -/
theorem C10_diversify_subsequence_witness :
    ∃ s, diversifyResults
      [⟨"a".toList, "x y".toList, "s".toList, ⟨none, none, "paragraph".toList⟩,
        1, 0, 1, 0⟩] (9 / 10) =
      ⟨"a".toList, "x y".toList, "s".toList, ⟨none, none, "paragraph".toList⟩,
        1, 0, 1, 0⟩ :: s :=
  (C10_diversify_subsequence _ _).2 _ [] rfl

/-! ## C5: upload deduplication by content hash -/

theorem filterDupGo_spec : ∀ (ds : List VectorDoc) (seen : List ℤ),
    ((filterDupGo seen ds).map (fun d => hashContent d.content)).Nodup ∧
    ∀ d ∈ filterDupGo seen ds, hashContent d.content ∉ seen := by
  intro ds
  induction ds with
  | nil => intro seen; simp [filterDupGo]
  | cons d ds ih =>
    intro seen
    rw [filterDupGo]
    by_cases h : hashContent d.content ∈ seen
    · rw [if_pos h]
      exact ih seen
    · rw [if_neg h]
      obtain ⟨hnd, hmem⟩ := ih (hashContent d.content :: seen)
      refine ⟨?_, ?_⟩
      · rw [List.map_cons, List.nodup_cons]
        refine ⟨?_, hnd⟩
        intro hc
        obtain ⟨e, he, heq⟩ := List.mem_map.mp hc
        exact hmem e he (heq ▸ List.mem_cons_self _ _)
      · intro e he
        rcases List.mem_cons.mp he with h1 | h1
        · subst h1; exact h
        · intro hc
          exact hmem e h1 (List.mem_cons_of_mem _ hc)

/-- **C5** (confirmed).  Within one `uploadBatch` call at most one record
per distinct content hash is handed to the insert (the hash list of
`filterDuplicates`' output has no duplicates), and when two embeddings with
identical content text are uploaded in one batch against a store that
returns one id per inserted row, exactly one record is inserted and the
result reports `uploaded = 1` and `duplicatesSkipped = 1`. -/
theorem C5_upload_dedup :
    (∀ (embs : List EnhancedEmbedding),
      ((filterDuplicates (toVectorDocs embs)).map
        (fun d => hashContent d.content)).Nodup) ∧
    ∀ (insert : InsertCall) (e1 e2 : EnhancedEmbedding),
      e1.text = e2.text →
      (∀ docs, ∃ ids, insert docs = Except.ok (some ids) ∧
        ids.length = docs.length) →
      (filterDuplicates (toVectorDocs [e1, e2])).length = 1 ∧
      (uploadBatch insert [e1, e2]).uploaded = 1 ∧
      (uploadBatch insert [e1, e2]).duplicatesSkipped = 1 := by
  constructor
  · intro embs
    exact (filterDupGo_spec (toVectorDocs embs) []).1
  · intro insert e1 e2 htext hins
    have hdocs : filterDuplicates (toVectorDocs [e1, e2]) =
        [{ content := e1.text, embedding := e1.embedding, source := e1.source
           metadata := convertToDocumentMetadata e1 }] := by
      unfold filterDuplicates toVectorDocs filterDupGo
      simp only [List.map_cons, List.map_nil]
      rw [if_neg (by simp)]
      rw [filterDupGo]
      rw [if_pos (by simp [htext])]
      rfl
    obtain ⟨ids, hok, hlen⟩ := hins (filterDuplicates (toVectorDocs [e1, e2]))
    have hlen1 : ids.length = 1 := by rw [hlen, hdocs]; rfl
    refine ⟨by rw [hdocs]; rfl, ?_, ?_⟩ <;>
    · unfold uploadBatch
      simp only [hdocs]
      rw [show (filterDuplicates (toVectorDocs [e1, e2])) = _ from hdocs] at hok
      simp only [List.isEmpty_cons, hok]
      simp [hlen1, toVectorDocs]

/-- Witness for C5 at a concrete input: two identical one-token embeddings,
a store echoing one id per row. -/
theorem C5_upload_dedup_witness :
    (uploadBatch (fun docs => Except.ok (some (docs.map (fun d => d.content))))
      [⟨"i1".toList, [1], "t".toList, 1, "s".toList,
        ⟨"c".toList, "paragraph".toList, 1, ⟨0, 0, 0⟩, ⟨[], [], [], 0⟩,
          ⟨false, none, false, false⟩, ⟨none, [], [], []⟩,
          ⟨"m".toList, 0, "1.0.0".toList, 1⟩⟩, ⟨1, 1, 1, 1, 1, 1⟩⟩,
       ⟨"i2".toList, [1], "t".toList, 1, "s".toList,
        ⟨"c".toList, "paragraph".toList, 1, ⟨0, 0, 0⟩, ⟨[], [], [], 0⟩,
          ⟨false, none, false, false⟩, ⟨none, [], [], []⟩,
          ⟨"m".toList, 0, "1.0.0".toList, 1⟩⟩, ⟨1, 1, 1, 1, 1, 1⟩⟩]).uploaded = 1 :=
  ((C5_upload_dedup.2 _ _ _ rfl
    (fun docs => ⟨docs.map (fun d => d.content), rfl, by simp⟩)).2).1

/-! ## C2: ordering, size and id-uniqueness of `similaritySearch` -/

theorem insertDescBy_perm (key : α → ℚ) (x : α) (l : List α) :
    (insertDescBy key x l).Perm (x :: l) := by
  induction l with
  | nil => rfl
  | cons y ys ih =>
    rw [insertDescBy]
    by_cases h : key x < key y
    · rw [if_pos h]
      exact (ih.cons y).trans (List.Perm.swap x y ys)
    · rw [if_neg h]

theorem sortDescBy_perm (key : α → ℚ) (l : List α) :
    (sortDescBy key l).Perm l := by
  induction l with
  | nil => rfl
  | cons x xs ih =>
    rw [sortDescBy]
    exact (insertDescBy_perm key x (sortDescBy key xs)).trans (ih.cons x)

theorem insertDescBy_pairwise (key : α → ℚ) (x : α) (l : List α)
    (hl : l.Pairwise (fun a b => key b ≤ key a)) :
    (insertDescBy key x l).Pairwise (fun a b => key b ≤ key a) := by
  induction l with
  | nil => simp [insertDescBy]
  | cons y ys ih =>
    rw [insertDescBy]
    rw [List.pairwise_cons] at hl
    by_cases h : key x < key y
    · rw [if_pos h]
      rw [List.pairwise_cons]
      refine ⟨?_, ih hl.2⟩
      intro z hz
      rcases List.mem_cons.mp ((insertDescBy_perm key x ys).mem_iff.mp hz) with h1 | h1
      · subst h1; exact le_of_lt h
      · exact hl.1 z h1
    · rw [if_neg h]
      rw [List.pairwise_cons]
      refine ⟨?_, List.pairwise_cons.mpr hl⟩
      intro z hz
      rcases List.mem_cons.mp hz with h1 | h1
      · subst h1; exact le_of_not_lt h
      · exact le_trans (hl.1 z h1) (le_of_not_lt h)

theorem sortDescBy_pairwise (key : α → ℚ) (l : List α) :
    (sortDescBy key l).Pairwise (fun a b => key b ≤ key a) := by
  induction l with
  | nil => simp [sortDescBy]
  | cons x xs ih =>
    rw [sortDescBy]
    exact insertDescBy_pairwise key x _ ih

theorem sortTake_nodup (key : α → ℚ) (f : α → β) (l : List α) (n : ℕ)
    (h : (l.map f).Nodup) : (((sortDescBy key l).take n).map f).Nodup :=
  ((List.take_sublist _ _).map f).nodup ((((sortDescBy_perm key l).map f).symm).nodup h)

theorem rerankResults_ids (now : ℚ) (l : List SearchResult) :
    (rerankResults now l).map (fun r => r.id) = l.map (fun r => r.id) := by
  unfold rerankResults
  rw [List.map_map]
  rfl

theorem applyBoostFactors_ids (l : List SearchResult) (bf : BoostFactors) :
    (applyBoostFactors l bf).map (fun r => r.id) = l.map (fun r => r.id) := by
  unfold applyBoostFactors
  rw [List.map_map]
  rfl

/-- **C2** (corrected).  For every clock value, candidate set and options,
the list returned by `similaritySearch` is sorted in non-increasing
(descending, ties permitted) order of the final relevance score and has
length at most `options.limit`; and whenever the candidate rows carry
pairwise-distinct record ids, the output also has no duplicate ids.  (As
stated, with *strictly* descending order and unconditional id-uniqueness,
the claim is false: see the counterexample.) -/
theorem C2_search_ranking (now : ℚ) (candidates : List SearchResult)
    (opts : SearchOptions) :
    ((similaritySearch now candidates opts).map
      (fun r => r.relevanceScore)).Pairwise (fun a b => b ≤ a) ∧
    (similaritySearch now candidates opts).length ≤ opts.limit ∧
    ((candidates.map (fun r => r.id)).Nodup →
      ((similaritySearch now candidates opts).map (fun r => r.id)).Nodup) := by
  unfold similaritySearch
  refine ⟨?_, ?_, ?_⟩
  · rw [List.pairwise_map]
    exact ((sortDescBy_pairwise _ _).sublist (List.take_sublist _ _))
  · exact List.length_take_le _ _
  · intro hnd
    have h1 : ((if opts.rerankResults then rerankResults now candidates
        else candidates).map (fun r => r.id)).Nodup := by
      by_cases h : opts.rerankResults
      · rw [if_pos h, rerankResults_ids]; exact hnd
      · rw [if_neg h]; exact hnd
    have h2 : (((if opts.diversityThreshold > 0 then
        diversifyResults (if opts.rerankResults then rerankResults now candidates
          else candidates) opts.diversityThreshold
        else (if opts.rerankResults then rerankResults now candidates
          else candidates))).map (fun r => r.id)).Nodup := by
      by_cases h : opts.diversityThreshold > 0
      · rw [if_pos h]
        exact ((diversifyResults_sublist _ _).map _).nodup h1
      · rw [if_neg h]; exact h1
    have h3 := applyBoostFactors_ids (if opts.diversityThreshold > 0 then
        diversifyResults (if opts.rerankResults then rerankResults now candidates
          else candidates) opts.diversityThreshold
        else (if opts.rerankResults then rerankResults now candidates
          else candidates)) opts.boostFactors
    have h4 : ((applyBoostFactors (if opts.diversityThreshold > 0 then
        diversifyResults (if opts.rerankResults then rerankResults now candidates
          else candidates) opts.diversityThreshold
        else (if opts.rerankResults then rerankResults now candidates
          else candidates)) opts.boostFactors).map (fun r => r.id)).Nodup := by
      rw [h3]; exact h2
    exact sortTake_nodup _ _ _ _ h4

/-- Counterexample for C2 as stated: two candidate rows with the same id
and equal similarity survive the pipeline unchanged, so the output has a
duplicate id and a tie (not strictly descending). -/
theorem C2_search_ranking_counterexample :
    (¬ (((similaritySearch 0
        [⟨"a".toList, "xx".toList, "s".toList, ⟨none, none, "p".toList⟩,
          1 / 2, 0, 1 / 2, 0⟩,
         ⟨"a".toList, "yy".toList, "s".toList, ⟨none, none, "p".toList⟩,
          1 / 2, 0, 1 / 2, 0⟩]
        ⟨10, 0, true, true, false, 0, ⟨1.2, 1.1, 1.3, [], []⟩⟩).map
        (fun r => r.id)).Nodup)) ∧
      ¬ (((similaritySearch 0
        [⟨"a".toList, "xx".toList, "s".toList, ⟨none, none, "p".toList⟩,
          1 / 2, 0, 1 / 2, 0⟩,
         ⟨"a".toList, "yy".toList, "s".toList, ⟨none, none, "p".toList⟩,
          1 / 2, 0, 1 / 2, 0⟩]
        ⟨10, 0, true, true, false, 0, ⟨1.2, 1.1, 1.3, [], []⟩⟩).map
        (fun r => r.relevanceScore)).Pairwise (fun a b => b < a)) := by
  have hout : similaritySearch 0
      [⟨"a".toList, "xx".toList, "s".toList, ⟨none, none, "p".toList⟩,
        1 / 2, 0, 1 / 2, 0⟩,
       ⟨"a".toList, "yy".toList, "s".toList, ⟨none, none, "p".toList⟩,
        1 / 2, 0, 1 / 2, 0⟩]
      ⟨10, 0, true, true, false, 0, ⟨1.2, 1.1, 1.3, [], []⟩⟩ =
      [⟨"a".toList, "xx".toList, "s".toList, ⟨none, none, "p".toList⟩,
        1 / 2, 0, 1 / 2, 0⟩,
       ⟨"a".toList, "yy".toList, "s".toList, ⟨none, none, "p".toList⟩,
        1 / 2, 0, 1 / 2, 0⟩] := by
    norm_num [similaritySearch, applyBoostFactors, lookupOr1, truthyNum,
      sortDescBy, insertDescBy]
  rw [hout]
  constructor
  · simp
  · intro hc
    have := List.pairwise_map.mp hc
    rw [List.pairwise_cons] at this
    have h2 := this.1 _ (List.mem_cons_self _ _)
    simp at h2

/-- Witness for C2's conditional id-uniqueness at a concrete input. -/
theorem C2_search_ranking_witness :
    ((similaritySearch 0
      [⟨"a".toList, "xx".toList, "s".toList, ⟨none, none, "p".toList⟩,
        1 / 2, 0, 1 / 2, 0⟩]
      ⟨10, 0, true, true, false, 0, ⟨1.2, 1.1, 1.3, [], []⟩⟩).map
      (fun r => r.id)).Nodup :=
  (C2_search_ranking 0 _ _).2.2 (by simp)

/-! ## C7: the overall quality score formula and its determinants -/

/-- **C7** (corrected).  The overall score is exactly
`0.2·textQuality + 0.25·semanticCoherence + 0.25·informationDensity +
0.15·uniqueness + 0.15·retrievalOptimization`, and each sub-score is a
deterministic function of the chunk's token count, content type,
importance, section metadata, and the optimised text (word-uniqueness
ratio and character variety) — independent of the embedding vector and of
everything else.  (As stated, with importance and section metadata absent
from the determinant list, the claim is false: see the counterexample.) -/
theorem C7_quality_formula :
    (∀ (opts : EmbeddingOptions) (chunk : SemanticChunk) (emb : List ℚ) (text : Str),
      (calculateEmbeddingQuality opts chunk emb text).overallScore =
        0.2 * (calculateEmbeddingQuality opts chunk emb text).textQuality +
        0.25 * (calculateEmbeddingQuality opts chunk emb text).semanticCoherence +
        0.25 * (calculateEmbeddingQuality opts chunk emb text).informationDensity +
        0.15 * (calculateEmbeddingQuality opts chunk emb text).uniqueness +
        0.15 * (calculateEmbeddingQuality opts chunk emb text).retrievalOptimization) ∧
    (∀ (opts : EmbeddingOptions) (c1 c2 : SemanticChunk) (e1 e2 : List ℚ) (text : Str),
      c1.tokens = c2.tokens → c1.contentType = c2.contentType →
      c1.importance = c2.importance →
      c1.metadata.sectionTitle = c2.metadata.sectionTitle →
      calculateEmbeddingQuality opts c1 e1 text =
        calculateEmbeddingQuality opts c2 e2 text) := by
  constructor
  · intro opts chunk emb text
    simp only [calculateEmbeddingQuality]
    ring
  · intro opts c1 c2 e1 e2 text htok hct himp hsec
    simp only [calculateEmbeddingQuality, assessSemanticCoherence, htok, hct,
      himp, hsec]

/-- Counterexample for C7 as stated: two chunks with the same token count,
content type and optimised text — hence the same word-uniqueness ratio and
character variety — but different importance receive different overall
scores, so the sub-scores are not functions of the four determinants the
claim lists. -/
theorem C7_quality_formula_counterexample :
    ((⟨"cA".toList, "a".toList, 0, ctParagraph, 0, ⟨0, 0, 0, 0, 1⟩,
        ⟨"s".toList, "Untitled".toList, none, [], [], Complexity.low, 0,
          "en".toList, 0⟩, []⟩ : SemanticChunk).tokens =
      (⟨"cB".toList, "a".toList, 0, ctParagraph, 1 / 2, ⟨0, 0, 0, 0, 1⟩,
        ⟨"s".toList, "Untitled".toList, none, [], [], Complexity.low, 0,
          "en".toList, 0⟩, []⟩ : SemanticChunk).tokens) ∧
    ((⟨"cA".toList, "a".toList, 0, ctParagraph, 0, ⟨0, 0, 0, 0, 1⟩,
        ⟨"s".toList, "Untitled".toList, none, [], [], Complexity.low, 0,
          "en".toList, 0⟩, []⟩ : SemanticChunk).contentType =
      (⟨"cB".toList, "a".toList, 0, ctParagraph, 1 / 2, ⟨0, 0, 0, 0, 1⟩,
        ⟨"s".toList, "Untitled".toList, none, [], [], Complexity.low, 0,
          "en".toList, 0⟩, []⟩ : SemanticChunk).contentType) ∧
    (calculateEmbeddingQuality defaultEmbeddingOptions
      ⟨"cA".toList, "a".toList, 0, ctParagraph, 0, ⟨0, 0, 0, 0, 1⟩,
        ⟨"s".toList, "Untitled".toList, none, [], [], Complexity.low, 0,
          "en".toList, 0⟩, []⟩ [1] "a".toList).overallScore ≠
    (calculateEmbeddingQuality defaultEmbeddingOptions
      ⟨"cB".toList, "a".toList, 0, ctParagraph, 1 / 2, ⟨0, 0, 0, 0, 1⟩,
        ⟨"s".toList, "Untitled".toList, none, [], [], Complexity.low, 0,
          "en".toList, 0⟩, []⟩ [1] "a".toList).overallScore := by
  have e1 : (splitWsJS "a".toList).length = 1 := by decide
  have e2 : (firstOccurs []
      ((splitWsJS "a".toList).map (fun w => w.map Char.toLower))).length = 1 := by
    decide
  have e3 : (firstOccurs [] ("a".toList.map Char.toLower)).length = 1 := by decide
  have e4 : ("a".toList.length) = 1 := by decide
  have e5 : ¬(ctParagraph = ctHeading) := by decide
  refine ⟨rfl, rfl, ?_⟩
  simp only [calculateEmbeddingQuality, assessSemanticCoherence,
    assessInformationDensity, assessUniqueness, defaultEmbeddingOptions,
    embeddingMaxTokensPerChunk, e1, e2, e3, e4, e5, if_false, if_true]
  norm_num

/-- Witness for C7's determinant clause at a concrete input. -/
theorem C7_quality_formula_witness :
    calculateEmbeddingQuality defaultEmbeddingOptions
      ⟨"cA".toList, "a".toList, 0, ctParagraph, 0, ⟨0, 0, 0, 0, 1⟩,
        ⟨"s".toList, "Untitled".toList, none, [], [], Complexity.low, 0,
          "en".toList, 0⟩, []⟩ [1] "a".toList =
    calculateEmbeddingQuality defaultEmbeddingOptions
      ⟨"cA2".toList, "zz".toList, 0, ctParagraph, 0, ⟨1, 2, 3, 0, 1⟩,
        ⟨"s2".toList, "T".toList, none, [], [], Complexity.high, 5,
          "en".toList, 9⟩, []⟩ [2, 3] "a".toList :=
  C7_quality_formula.2 defaultEmbeddingOptions _ _ [1] [2, 3] "a".toList
    rfl rfl rfl rfl


/-! ## C6: batch-failure fallback, exponential backoff, named errors -/

theorem gssGo_all_fail (opts : EmbeddingOptions) (now : ℕ)
    (chunk : SemanticChunk) (api : ℕ → EmbedCall) :
    ∀ (fuel r : ℕ), fuel = opts.maxRetries + 1 - r → r ≤ opts.maxRetries →
    (∀ k, r ≤ k → k ≤ opts.maxRetries →
      ∃ m, singleAttempt opts now chunk api k = Except.error m) →
    ∃ m, generateSingleEmbeddingGo opts now chunk api fuel r =
      (Except.error m,
        (List.range' r (opts.maxRetries - r)).map
          (fun k => opts.retryDelay * 2 ^ k)) := by
  intro fuel
  induction fuel with
  | zero => intro r hfuel hr hfail; omega
  | succ f ih =>
    intro r hfuel hr hfail
    obtain ⟨m, hm⟩ := hfail r le_rfl hr
    rw [generateSingleEmbeddingGo, hm]
    dsimp only
    by_cases hlt : r < opts.maxRetries
    · rw [if_pos hlt]
      obtain ⟨m2, hm2⟩ := ih (r + 1) (by omega) (by omega)
        (fun k hk1 hk2 => hfail k (by omega) hk2)
      rw [hm2]
      refine ⟨m2, ?_⟩
      have hn : opts.maxRetries - r = (opts.maxRetries - (r + 1)) + 1 := by omega
      rw [hn, List.range'_succ]
      simp
    · rw [if_neg hlt]
      have hre : r = opts.maxRetries := by omega
      refine ⟨m, ?_⟩
      rw [hre]
      simp

theorem gssGo_succ_at (opts : EmbeddingOptions) (now : ℕ)
    (chunk : SemanticChunk) (api : ℕ → EmbedCall) (j : ℕ)
    (res : EnhancedEmbedding × ℕ)
    (hok : singleAttempt opts now chunk api j = Except.ok res) :
    ∀ (fuel r : ℕ), fuel = opts.maxRetries + 1 - r → r ≤ j →
    j ≤ opts.maxRetries →
    (∀ k, r ≤ k → k < j →
      ∃ m, singleAttempt opts now chunk api k = Except.error m) →
    generateSingleEmbeddingGo opts now chunk api fuel r =
      (Except.ok res,
        (List.range' r (j - r)).map (fun k => opts.retryDelay * 2 ^ k)) := by
  intro fuel
  induction fuel with
  | zero => intro r hfuel hr hj hfail; omega
  | succ f ih =>
    intro r hfuel hr hj hfail
    by_cases hrj : r = j
    · subst hrj
      rw [generateSingleEmbeddingGo, hok]
      simp
    · obtain ⟨m, hm⟩ := hfail r le_rfl (by omega)
      rw [generateSingleEmbeddingGo, hm]
      dsimp only
      rw [if_pos (by omega)]
      rw [ih (r + 1) (by omega) (by omega) hj
        (fun k hk1 hk2 => hfail k (by omega) hk2)]
      have hn : j - r = (j - (r + 1)) + 1 := by omega
      rw [hn, List.range'_succ]
      simp

theorem procInd_err (opts : EmbeddingOptions) (now : ℕ)
    (single : Str → ℕ → EmbedCall) (msg : Str) :
    ∀ (chunks : List SemanticChunk) (c : SemanticChunk), c ∈ chunks →
    (generateSingleEmbedding opts now c (single c.id) 0).1 = Except.error msg →
    ("Individual embedding failed for chunk ".toList ++ c.id ++ ": ".toList ++ msg)
      ∈ (processIndividually opts now single chunks).2.2 := by
  intro chunks
  induction chunks with
  | nil => intro c hc; simp at hc
  | cons d ds ih =>
    intro c hc herr
    rw [processIndividually]
    rcases List.mem_cons.mp hc with h1 | h1
    · subst h1
      rw [herr]
      simp
    · cases hres : (generateSingleEmbedding opts now d (single d.id) 0).1 with
      | ok r => simpa [hres] using ih c h1 herr
      | error m => simpa [hres] using Or.inr (ih c h1 herr)

theorem procInd_ok (opts : EmbeddingOptions) (now : ℕ)
    (single : Str → ℕ → EmbedCall) (e : EnhancedEmbedding) (t : ℕ) :
    ∀ (chunks : List SemanticChunk) (c : SemanticChunk), c ∈ chunks →
    (generateSingleEmbedding opts now c (single c.id) 0).1 = Except.ok (e, t) →
    e ∈ (processIndividually opts now single chunks).1 := by
  intro chunks
  induction chunks with
  | nil => intro c hc; simp at hc
  | cons d ds ih =>
    intro c hc hok
    rw [processIndividually]
    rcases List.mem_cons.mp hc with h1 | h1
    · subst h1
      rw [hok]
      simp
    · cases hres : (generateSingleEmbedding opts now d (single d.id) 0).1 with
      | ok r => simpa [hres] using Or.inr (ih c h1 hok)
      | error m => simpa [hres] using ih c h1 hok


/-- **C6** (confirmed).  On the per-chunk path: an attempt succeeding at
attempt `j ≤ maxRetries` (after `j` failures) returns its embedding after
sleeping exactly `retryDelay * 2 ^ k` for `k = 0, …, j - 1` (the claim's
`retryBaseDelay * 2^(attempt-1)`); when every attempt up to `maxRetries`
fails, the call returns an error after exactly `maxRetries` backoff
delays.  On the batch-failure fallback path of `processBatch`: a chunk
whose retries are exhausted contributes the named error
`'Individual embedding failed for chunk <id>: <msg>'` to the error list,
and a chunk whose per-chunk call succeeds still contributes its embedding
to the output — the remaining chunks of the batch are processed. -/
theorem C6_fallback_retry :
    (∀ (opts : EmbeddingOptions) (now : ℕ) (chunk : SemanticChunk)
        (api : ℕ → EmbedCall) (j : ℕ) (res : EnhancedEmbedding × ℕ),
      j ≤ opts.maxRetries →
      (∀ k, k < j → ∃ m, singleAttempt opts now chunk api k = Except.error m) →
      singleAttempt opts now chunk api j = Except.ok res →
      generateSingleEmbedding opts now chunk api 0 =
        (Except.ok res,
          (List.range j).map (fun k => opts.retryDelay * 2 ^ k))) ∧
    (∀ (opts : EmbeddingOptions) (now : ℕ) (chunk : SemanticChunk)
        (api : ℕ → EmbedCall),
      (∀ k, k ≤ opts.maxRetries →
        ∃ m, singleAttempt opts now chunk api k = Except.error m) →
      ∃ m, generateSingleEmbedding opts now chunk api 0 =
        (Except.error m,
          (List.range opts.maxRetries).map (fun k => opts.retryDelay * 2 ^ k))) ∧
    (∀ (opts : EmbeddingOptions) (now : ℕ) (em : Str)
        (single : Str → ℕ → EmbedCall) (chunks : List SemanticChunk)
        (c : SemanticChunk), c ∈ chunks →
      (∀ msg, (generateSingleEmbedding opts now c (single c.id) 0).1 =
          Except.error msg →
        ("Individual embedding failed for chunk ".toList ++ c.id ++ ": ".toList
          ++ msg) ∈ (processBatch opts now (Except.error em) single chunks).errors)
      ∧ (∀ e t, (generateSingleEmbedding opts now c (single c.id) 0).1 =
          Except.ok (e, t) →
        e ∈ (processBatch opts now (Except.error em) single chunks).embeddings)) := by
  refine ⟨?_, ?_, ?_⟩
  · intro opts now chunk api j res hj hfail hok
    unfold generateSingleEmbedding
    rw [gssGo_succ_at opts now chunk api j res hok (opts.maxRetries + 1 - 0) 0
      rfl (by omega) hj (fun k hk1 hk2 => hfail k hk2)]
    rw [List.range_eq_range']
    simp
  · intro opts now chunk api hfail
    unfold generateSingleEmbedding
    obtain ⟨m, hm⟩ := gssGo_all_fail opts now chunk api (opts.maxRetries + 1 - 0)
      0 rfl (by omega) (fun k hk1 hk2 => hfail k hk2)
    refine ⟨m, ?_⟩
    rw [hm, List.range_eq_range']
    simp
  · intro opts now em single chunks c hc
    constructor
    · intro msg herr
      have := procInd_err opts now single msg chunks c hc herr
      simpa [processBatch] using this
    · intro e t hok
      have := procInd_ok opts now single e t chunks c hc hok
      simpa [processBatch] using this

/-- Witness for C6 at a concrete input: three failing attempts produce the
backoff delays `[1000, 2000, 4000]`. -/
theorem C6_fallback_retry_witness :
    ∃ m, generateSingleEmbedding defaultEmbeddingOptions 0
      ⟨"c1".toList, "a".toList, 0, ctParagraph, 0, ⟨0, 0, 0, 0, 1⟩,
        ⟨"s".toList, "Untitled".toList, none, [], [], Complexity.low, 0,
          "en".toList, 0⟩, []⟩
      (fun _ => Except.error "boom".toList) 0 =
      (Except.error m, [1000, 2000, 4000]) := by
  obtain ⟨m, hm⟩ := C6_fallback_retry.2.1 defaultEmbeddingOptions 0
    ⟨"c1".toList, "a".toList, 0, ctParagraph, 0, ⟨0, 0, 0, 0, 1⟩,
      ⟨"s".toList, "Untitled".toList, none, [], [], Complexity.low, 0,
        "en".toList, 0⟩, []⟩
    (fun _ => Except.error "boom".toList)
    (fun k _ => ⟨"boom".toList, by rw [singleAttempt]⟩)
  refine ⟨m, ?_⟩
  rw [hm]
  norm_num [defaultEmbeddingOptions, List.range_succ]


/-! ## C1: the quality gate -/

theorem batchLoop_gate (opts : EmbeddingOptions) (now : ℕ) :
    ∀ (l : List (SemanticChunk × List ℚ)),
    (∀ e ∈ (batchLoop opts now l).1, opts.qualityThreshold ≤ e.quality.overallScore) ∧
    (∀ p ∈ l, (calculateEmbeddingQuality opts p.1 p.2
        (optimizeTextForEmbedding opts p.1.content)).overallScore <
        opts.qualityThreshold →
      ("Low quality embedding for chunk ".toList ++ p.1.id) ∈ (batchLoop opts now l).2) := by
  intro l
  induction l with
  | nil => simp [batchLoop]
  | cons p ps ih =>
    obtain ⟨c, v⟩ := p
    rw [batchLoop]
    by_cases h : (createEnhancedEmbedding opts now c v
        (optimizeTextForEmbedding opts c.content)).quality.overallScore ≥
        opts.qualityThreshold
    · rw [if_pos h]
      constructor
      · intro e he
        rcases List.mem_cons.mp he with h1 | h1
        · subst h1; exact h
        · exact ih.1 e h1
      · intro q hq hql
        rcases List.mem_cons.mp hq with h1 | h1
        · exfalso
          subst h1
          exact absurd h (by simpa [createEnhancedEmbedding] using not_le.mpr hql)
        · exact ih.2 q h1 hql
    · rw [if_neg h]
      constructor
      · exact ih.1
      · intro q hq hql
        rcases List.mem_cons.mp hq with h1 | h1
        · subst h1
          exact List.mem_cons_self _ _
        · exact List.mem_cons_of_mem _ (ih.2 q h1 hql)

theorem processBatch_gate (opts : EmbeddingOptions) (now : ℕ)
    (single : Str → ℕ → EmbedCall) (chunks : List SemanticChunk)
    (vecs : List (List ℚ)) (toks : ℕ) (hlen : vecs.length = chunks.length) :
    (∀ e ∈ (processBatch opts now (Except.ok (vecs, toks)) single chunks).embeddings,
      opts.qualityThreshold ≤ e.quality.overallScore) ∧
    (∀ p ∈ chunks.zip vecs,
      (calculateEmbeddingQuality opts p.1 p.2
        (optimizeTextForEmbedding opts p.1.content)).overallScore <
        opts.qualityThreshold →
      ("Low quality embedding for chunk ".toList ++ p.1.id) ∈
        (processBatch opts now (Except.ok (vecs, toks)) single chunks).errors) := by
  have h := batchLoop_gate opts now (chunks.zip vecs)
  constructor
  · intro e he
    refine h.1 e ?_
    simpa [processBatch, hlen] using he
  · intro p hp hq
    have := h.2 p hp hq
    simpa [processBatch, hlen] using this


theorem genLoop_gate (opts : EmbeddingOptions) (now : ℕ)
    (batchApi : ℕ → EmbedCall) (single : Str → ℕ → EmbedCall) :
    ∀ (bs : List (List SemanticChunk)) (i : ℕ),
    (∀ k, k < bs.length → ∃ v t, batchApi (i + k) = Except.ok (v, t) ∧
      v.length = (bs.getD k []).length) →
    ∀ e ∈ (genLoop opts now batchApi single i bs).embeddings,
      opts.qualityThreshold ≤ e.quality.overallScore := by
  intro bs
  induction bs with
  | nil => intro i h e he; simp [genLoop] at he
  | cons b rest ih =>
    intro i h e he
    rw [genLoop] at he
    simp only [List.mem_append] at he
    rcases he with he | he
    · obtain ⟨v, t, hapi, hvlen⟩ := h 0 (by simp)
      simp only [Nat.add_zero] at hapi
      rw [hapi] at he
      exact (processBatch_gate opts now single b v t (by simpa using hvlen)).1 e he
    · exact ih (i + 1) (fun k hk => by
        obtain ⟨v, t, hh⟩ := h (k + 1) (by simpa using hk)
        exact ⟨v, t, by rw [← hh.1]; congr 1; omega, by simpa using hh.2⟩) e he

/-- **C1** (corrected).  On the batch path — every batch request succeeds
and returns one vector per chunk — every embedding in the output of
`generateEmbeddings` has `quality.overallScore ≥ qualityThreshold`, and a
chunk excluded for low quality is reported by a
`'Low quality embedding for chunk <id>'` message pushed onto the *same*
`errors` list that carries failures (the source has no separate warnings
list).  As stated the claim is false on the per-chunk fallback path, which
applies no quality gate: see the counterexample. -/
theorem C1_quality_gate_batch_path (opts : EmbeddingOptions) (now : ℕ)
    (batchApi : ℕ → EmbedCall) (single : Str → ℕ → EmbedCall)
    (elapsedMs : ℕ) (chunks : List SemanticChunk)
    (hbatch : ∀ k, k < (toBatches opts.batchSize chunks).length →
      ∃ v t, batchApi k = Except.ok (v, t) ∧
        v.length = ((toBatches opts.batchSize chunks).getD k []).length) :
    (∀ e ∈ (generateEmbeddings opts now batchApi single elapsedMs chunks).embeddings,
      opts.qualityThreshold ≤ e.quality.overallScore) ∧
    (∀ (vecs : List (List ℚ)) (toks : ℕ) (batch : List SemanticChunk),
      vecs.length = batch.length →
      ∀ p ∈ batch.zip vecs,
        (calculateEmbeddingQuality opts p.1 p.2
          (optimizeTextForEmbedding opts p.1.content)).overallScore <
          opts.qualityThreshold →
        ("Low quality embedding for chunk ".toList ++ p.1.id) ∈
          (processBatch opts now (Except.ok (vecs, toks)) single batch).errors) := by
  constructor
  · intro e he
    refine genLoop_gate opts now batchApi single (toBatches opts.batchSize chunks) 0
      (fun k hk => by simpa using hbatch k hk) e ?_
    simpa [generateEmbeddings] using he
  · intro vecs toks batch hlen p hp hq
    exact (processBatch_gate opts now single batch vecs toks hlen).2 p hp hq

/-- Counterexample for C1 as stated: after a batch failure the fallback
path inserts an embedding with overall score `0.71` into the output even
though the quality threshold is `0.9`. -/
theorem C1_quality_gate_counterexample :
    ((processBatch
        ⟨"text-embedding-3-small".toList, 1536, 50, 3, 1000, 9 / 10, true, true⟩ 0
        (Except.error "batch failed".toList)
        (fun _ _ => Except.ok ([[1]], 7))
        [⟨"c1".toList, "a".toList, 0, ctParagraph, 0, ⟨0, 0, 0, 0, 1⟩,
          ⟨"s".toList, "Untitled".toList, none, [], [], Complexity.low, 0,
            "en".toList, 0⟩, []⟩]).embeddings.map
      (fun e => e.quality.overallScore)) = [71 / 100] ∧
    (71 / 100 : ℚ) < 9 / 10 := by
  constructor
  · have hemb : (processBatch
        ⟨"text-embedding-3-small".toList, 1536, 50, 3, 1000, 9 / 10, true, true⟩ 0
        (Except.error "batch failed".toList)
        (fun _ _ => Except.ok ([[1]], 7))
        [⟨"c1".toList, "a".toList, 0, ctParagraph, 0, ⟨0, 0, 0, 0, 1⟩,
          ⟨"s".toList, "Untitled".toList, none, [], [], Complexity.low, 0,
            "en".toList, 0⟩, []⟩]).embeddings =
        [createEnhancedEmbedding
          ⟨"text-embedding-3-small".toList, 1536, 50, 3, 1000, 9 / 10, true, true⟩ 0
          ⟨"c1".toList, "a".toList, 0, ctParagraph, 0, ⟨0, 0, 0, 0, 1⟩,
            ⟨"s".toList, "Untitled".toList, none, [], [], Complexity.low, 0,
              "en".toList, 0⟩, []⟩ [1]
          (optimizeTextForEmbedding
            ⟨"text-embedding-3-small".toList, 1536, 50, 3, 1000, 9 / 10, true, true⟩
            "a".toList)] := by
      simp [processBatch, processIndividually, generateSingleEmbedding,
        generateSingleEmbeddingGo, singleAttempt]
    rw [hemb]
    have hopt : optimizeTextForEmbedding
        ⟨"text-embedding-3-small".toList, 1536, 50, 3, 1000, 9 / 10, true, true⟩
        "a".toList = "a".toList := by decide
    have e1 : (splitWsJS "a".toList).length = 1 := by decide
    have e2 : (firstOccurs []
        ((splitWsJS "a".toList).map (fun w => w.map Char.toLower))).length = 1 := by
      decide
    have e3 : (firstOccurs [] ("a".toList.map Char.toLower)).length = 1 := by decide
    have e4 : ("a".toList.length) = 1 := by decide
    have e5 : ¬(ctParagraph = ctHeading) := by decide
    simp only [List.map_cons, List.map_nil, createEnhancedEmbedding, hopt]
    simp only [calculateEmbeddingQuality, assessSemanticCoherence,
      assessInformationDensity, assessUniqueness, embeddingMaxTokensPerChunk,
      e1, e2, e3, e4, e5, if_false, if_true]
    norm_num
  · norm_num

/-- Witness for C1's batch-path gate at a concrete input: the low-quality
chunk's named message lands in the error list. -/
theorem C1_quality_gate_batch_path_witness :
    ("Low quality embedding for chunk ".toList ++ "c1".toList) ∈
      (processBatch
        ⟨"text-embedding-3-small".toList, 1536, 50, 3, 1000, 9 / 10, true, true⟩ 0
        (Except.ok ([[1]], 7)) (fun _ _ => Except.ok ([[1]], 7))
        [⟨"c1".toList, "a".toList, 0, ctParagraph, 0, ⟨0, 0, 0, 0, 1⟩,
          ⟨"s".toList, "Untitled".toList, none, [], [], Complexity.low, 0,
            "en".toList, 0⟩, []⟩]).errors := by
  have hq : (calculateEmbeddingQuality
      ⟨"text-embedding-3-small".toList, 1536, 50, 3, 1000, 9 / 10, true, true⟩
      ⟨"c1".toList, "a".toList, 0, ctParagraph, 0, ⟨0, 0, 0, 0, 1⟩,
        ⟨"s".toList, "Untitled".toList, none, [], [], Complexity.low, 0,
          "en".toList, 0⟩, []⟩ [1]
      (optimizeTextForEmbedding
        ⟨"text-embedding-3-small".toList, 1536, 50, 3, 1000, 9 / 10, true, true⟩
        "a".toList)).overallScore < 9 / 10 := by
    have hopt : optimizeTextForEmbedding
        ⟨"text-embedding-3-small".toList, 1536, 50, 3, 1000, 9 / 10, true, true⟩
        "a".toList = "a".toList := by decide
    have e1 : (splitWsJS "a".toList).length = 1 := by decide
    have e2 : (firstOccurs []
        ((splitWsJS "a".toList).map (fun w => w.map Char.toLower))).length = 1 := by
      decide
    have e3 : (firstOccurs [] ("a".toList.map Char.toLower)).length = 1 := by decide
    have e4 : ("a".toList.length) = 1 := by decide
    have e5 : ¬(ctParagraph = ctHeading) := by decide
    rw [hopt]
    simp only [calculateEmbeddingQuality, assessSemanticCoherence,
      assessInformationDensity, assessUniqueness, embeddingMaxTokensPerChunk,
      e1, e2, e3, e4, e5, if_false, if_true]
    norm_num
  have h := (C1_quality_gate_batch_path
    ⟨"text-embedding-3-small".toList, 1536, 50, 3, 1000, 9 / 10, true, true⟩ 0
    (fun _ => Except.ok ([[1]], 7)) (fun _ _ => Except.ok ([[1]], 7)) 0
    [⟨"c1".toList, "a".toList, 0, ctParagraph, 0, ⟨0, 0, 0, 0, 1⟩,
      ⟨"s".toList, "Untitled".toList, none, [], [], Complexity.low, 0,
        "en".toList, 0⟩, []⟩]
    (fun k hk => ⟨[[1]], 7, rfl, by
      have hk0 : k = 0 := by simpa [toBatches, toBatchesGo] using hk
      subst hk0
      decide⟩)).2 [[1]] 7
    [⟨"c1".toList, "a".toList, 0, ctParagraph, 0, ⟨0, 0, 0, 0, 1⟩,
      ⟨"s".toList, "Untitled".toList, none, [], [], Complexity.low, 0,
        "en".toList, 0⟩, []⟩] rfl
    (⟨"c1".toList, "a".toList, 0, ctParagraph, 0, ⟨0, 0, 0, 0, 1⟩,
      ⟨"s".toList, "Untitled".toList, none, [], [], Complexity.low, 0,
        "en".toList, 0⟩, []⟩, [1]) (by simp) hq
  simpa using h


/-! ## C8: determinism of chunk boundaries and scores -/

theorem chunkSectionGo_obs (source : Str) (sec : Section) (si sci : ℕ)
    (n1 n2 : ℕ) :
    ∀ (ps : List Str) (chunks1 chunks2 : List SemanticChunk) (cur : Str)
      (tok pi : ℕ),
    chunks1.map (fun c => (c.content, c.tokens, c.contentType, c.importance,
      c.metadata.readability)) =
      chunks2.map (fun c => (c.content, c.tokens, c.contentType, c.importance,
        c.metadata.readability)) →
    (chunkSectionGo n1 source sec si sci chunks1 cur tok pi ps).map
      (fun c => (c.content, c.tokens, c.contentType, c.importance,
        c.metadata.readability)) =
    (chunkSectionGo n2 source sec si sci chunks2 cur tok pi ps).map
      (fun c => (c.content, c.tokens, c.contentType, c.importance,
        c.metadata.readability)) := by
  intro ps
  induction ps with
  | nil =>
    intro chunks1 chunks2 cur tok pi h
    rw [chunkSectionGo, chunkSectionGo]
    by_cases he : (trimJS cur).isEmpty
    · rw [if_pos he, if_pos he]; exact h
    · rw [if_neg he, if_neg he]
      rw [List.map_append, List.map_append, h]
      rfl
  | cons p ps ih =>
    intro chunks1 chunks2 cur tok pi h
    rw [chunkSectionGo, chunkSectionGo]
    by_cases hc : tok + estimateTokenCount p > getOptimalChunkSize sec.type ∧
      ¬cur.isEmpty
    · rw [if_pos hc, if_pos hc]
      refine ih _ _ _ _ _ ?_
      rw [List.map_append, List.map_append, h]
      rfl
    · rw [if_neg hc, if_neg hc]
      exact ih _ _ _ _ _ h


/-- **C8** (confirmed).  Chunking is deterministic in its boundaries and
scores: the only clock-dependent inputs of the semantic chunker are the
`Date.now()` readings threaded through `createChunk` (parameter `now`),
which reach only the generated `id` and the `createdAt` stamp; the chunk
content, token count, content type, importance and readability of every
produced chunk are identical across runs with different clock values.  The
`textChunker` embedding (`chunkText`) takes no clock or randomness
parameter at all — its output is a pure function of the text, source and
options — and no splitting decision anywhere reads the clock. -/
theorem C8_chunking_determinism :
    (∀ (n1 n2 : ℕ) (content source : Str) (sec : Section) (si pi ci1 ci2 : ℕ),
      ((createChunk n1 content source sec si pi ci1).content,
       (createChunk n1 content source sec si pi ci1).tokens,
       (createChunk n1 content source sec si pi ci1).contentType,
       (createChunk n1 content source sec si pi ci1).importance,
       (createChunk n1 content source sec si pi ci1).metadata.readability) =
      ((createChunk n2 content source sec si pi ci2).content,
       (createChunk n2 content source sec si pi ci2).tokens,
       (createChunk n2 content source sec si pi ci2).contentType,
       (createChunk n2 content source sec si pi ci2).importance,
       (createChunk n2 content source sec si pi ci2).metadata.readability)) ∧
    (∀ (n1 n2 : ℕ) (sec : Section) (source : Str) (si sci : ℕ),
      (chunkSection n1 sec source si sci).map
        (fun c => (c.content, c.tokens, c.contentType, c.importance,
          c.metadata.readability)) =
      (chunkSection n2 sec source si sci).map
        (fun c => (c.content, c.tokens, c.contentType, c.importance,
          c.metadata.readability))) := by
  constructor
  · intro n1 n2 content source sec si pi ci1 ci2
    rfl
  · intro n1 n2 sec source si sci
    unfold chunkSection
    by_cases he : (trimJS sec.content).isEmpty
    · rw [if_pos he, if_pos he]
    · rw [if_neg he, if_neg he]
      exact chunkSectionGo_obs source sec si sci n1 n2 _ [] [] [] 0 0 rfl


/-! ## C3: the token bound -/

theorem splitArbGo_bound (tc : Str → ℕ) (maxT : ℕ) :
    ∀ (ws : List Str) (chunks : List Str) (current : Str),
    (∀ ch ∈ chunks, tc ch ≤ maxT ∨ ∀ c ∈ ch, isWs c = false) →
    (current = [] ∨ tc current ≤ maxT ∨ ∀ c ∈ current, isWs c = false) →
    (∀ w ∈ ws, ∀ c ∈ w, isWs c = false) →
    ∀ ch ∈ splitArbGo tc maxT 0 chunks current ws,
      tc ch ≤ maxT ∨ ∀ c ∈ ch, isWs c = false := by
  intro ws
  induction ws with
  | nil =>
    intro chunks current hchunks hcur _ ch hch
    rw [splitArbGo] at hch
    by_cases he : current.isEmpty
    · rw [if_pos he] at hch
      exact hchunks ch hch
    · rw [if_neg he] at hch
      rcases List.mem_append.mp hch with h1 | h1
      · exact hchunks ch h1
      · have : ch = current := by simpa using h1
        subst this
        rcases hcur with h2 | h2
        · subst h2
          simp at he
        · exact h2
  | cons w ws ih =>
    intro chunks current hchunks hcur hws ch hch
    rw [splitArbGo] at hch
    by_cases h1 : tc (if current.isEmpty then w else current ++ ' ' :: w) ≤ maxT
    · rw [if_pos h1] at hch
      refine ih chunks _ hchunks (Or.inr (Or.inl h1))
        (fun v hv => hws v (List.mem_cons_of_mem _ hv)) ch hch
    · rw [if_neg h1] at hch
      by_cases h2 : ¬current.isEmpty
      · rw [if_pos h2] at hch
        rw [if_neg (by omega : ¬(0 : ℕ) > 0)] at hch
        refine ih (chunks ++ [current]) w ?_
          (Or.inr (Or.inr (hws w (List.mem_cons_self _ _))))
          (fun v hv => hws v (List.mem_cons_of_mem _ hv)) ch hch
        intro d hd
        rcases List.mem_append.mp hd with h3 | h3
        · exact hchunks d h3
        · have : d = current := by simpa using h3
          subst this
          rcases hcur with h4 | h4
          · subst h4
            simp at h2
          · exact h4
      · rw [if_neg h2] at hch
        refine ih (chunks ++ [w]) [] ?_ (Or.inl rfl)
          (fun v hv => hws v (List.mem_cons_of_mem _ hv)) ch hch
        intro d hd
        rcases List.mem_append.mp hd with h3 | h3
        · exact hchunks d h3
        · have hdw : d = w := by simpa using h3
          rw [hdw]
          exact Or.inr (hws w (List.mem_cons_self _ _))

/-- **C3** (corrected).  With zero overlap, every chunk emitted by
`splitArbitrarily` either respects the token bound or is a single
indivisible word (contains no whitespace) — for every token counter.  As
stated — for every configuration and for the semantic chunker as well —
the claim is false: a positive `chunkOverlap` re-seeds the buffer with
overlap words without re-checking the bound (see the counterexample, a
`chunkText` run emitting a two-word chunk of 5 tokens with `maxTokens =
2`), and `chunkSection` emits a single paragraph exceeding the configured
size as one oversized multi-word chunk rather than splitting it. -/
theorem C3_token_bound (tc : Str → ℕ) (maxT : ℕ) (text : Str) :
    ∀ ch ∈ splitArbitrarily tc maxT 0 text,
      tc ch ≤ maxT ∨ ∀ c ∈ ch, isWs c = false := by
  intro ch hch
  exact splitArbGo_bound tc maxT (splitWsJS text) [] []
    (by simp) (Or.inl rfl) (splitWsJS_wsfree text) ch hch

set_option maxRecDepth 40000 in
/-- Counterexample for C3 as stated: with `maxTokens = 2` and
`chunkOverlap = 100`, `chunkText` emits the chunk `"aaaaaaaa bbbbbbbb"`
(5 estimated tokens, two words — not a single indivisible token). -/
theorem C3_token_bound_counterexample :
    ∃ ch ∈ chunkText estimateTokenCount
      "aaaaaaaa bbbbbbbb cccccccc".toList "s".toList
      ⟨2, 100, false, false, 0⟩,
      2 < ch.tokenCount ∧ ch.content.any isWs ∧ 2 ≤ ch.wordCount := by
  decide

/-- Witness for C3's amended bound at a concrete input. -/
theorem C3_token_bound_witness :
    estimateTokenCount "aaaaaaaa".toList ≤ 2 ∨
      ∀ c ∈ "aaaaaaaa".toList, isWs c = false :=
  C3_token_bound estimateTokenCount 2 "aaaaaaaa bb".toList
    "aaaaaaaa".toList (by decide)


/-! ## C4: content preservation through chunking -/

theorem stripWs_eq_nil_of_all_ws {l : Str} (h : ∀ c ∈ l, isWs c = true) :
    stripWs l = [] := by
  simp only [stripWs, List.filter_eq_nil_iff]
  intro c hc
  simp [h c hc]

theorem stripWs_stripWs (l : Str) : stripWs (stripWs l) = stripWs l := by
  simp [stripWs, List.filter_filter]

theorem stripWs_cons_ws {c : Char} (h : isWs c = true) (l : Str) :
    stripWs (c :: l) = stripWs l := by
  simp [stripWs, h]

theorem stripWs_cons_not_ws {c : Char} (h : isWs c = false) (l : Str) :
    stripWs (c :: l) = c :: stripWs l := by
  simp [stripWs, h]

theorem stripWs_sp_join (a b : Str) :
    stripWs (a ++ ' ' :: b) = stripWs a ++ stripWs b := by
  rw [stripWs_append, stripWs_cons_ws (by decide)]

theorem stripWs_nl2_join (a b : Str) :
    stripWs (a ++ '\n' :: '\n' :: b) = stripWs a ++ stripWs b := by
  rw [stripWs_append, stripWs_cons_ws (by decide), stripWs_cons_ws (by decide)]

theorem lastNlIdx_lt : ∀ (l : Str) (j : ℕ), lastNlIdx l = some j → j < l.length := by
  intro l
  induction l with
  | nil => intro j h; simp [lastNlIdx] at h
  | cons c rest ih =>
    intro j h
    rw [lastNlIdx] at h
    cases hr : lastNlIdx rest with
    | some k =>
      rw [hr] at h
      cases h
      have := ih k hr
      simp
      omega
    | none =>
      rw [hr] at h
      by_cases hc : c = '\n'
      · rw [if_pos hc] at h
        cases h
        simp
      · rw [if_neg hc] at h
        cases h

theorem take_le_takeWhile (p : Char → Bool) :
    ∀ (l : Str) (n : ℕ), n ≤ (l.takeWhile p).length →
      l.take n = (l.takeWhile p).take n := by
  intro l
  induction l with
  | nil => intro n h; simp
  | cons c rest ih =>
    intro n h
    by_cases hc : p c
    · rw [List.takeWhile_cons_of_pos hc] at h ⊢
      cases n with
      | zero => simp
      | succ m =>
        rw [List.take_succ_cons, List.take_succ_cons, ih m (by simpa using h)]
    · rw [List.takeWhile_cons_of_neg hc] at h ⊢
      have : n = 0 := by simpa using h
      simp [this]

theorem stripWs_nil : stripWs [] = [] := rfl

theorem stripWs_cons_split (c : Char) (l : Str) :
    stripWs (c :: l) = stripWs [c] ++ stripWs l := by
  rw [← List.singleton_append, stripWs_append]

theorem splitSentGo_strip :
    ∀ (xs : Str) (inDelim : Bool) (cur : Str),
    stripWs (splitSentGo inDelim cur xs).flatten =
      stripWs cur.reverse ++ stripWs xs := by
  intro xs
  induction xs with
  | nil => intro inDelim cur; simp [splitSentGo, stripWs_nil]
  | cons c rest ih =>
    intro inDelim cur
    rw [splitSentGo.eq_def]
    dsimp only
    by_cases h1 : (inDelim && isWs c) = true
    · rw [if_pos h1, ih]
      rw [stripWs_cons_ws ((Bool.and_eq_true _ _).mp h1).2]
    · rw [if_neg h1]
      by_cases h2 : (isWs c &&
          (match cur with | p :: _ => isPunct p | [] => false)) = true
      · rw [if_pos h2, List.flatten_cons, stripWs_append, ih]
        rw [stripWs_cons_ws ((Bool.and_eq_true _ _).mp h2).1]
        simp [stripWs_nil]
      · rw [if_neg h2, ih, List.reverse_cons, stripWs_append,
          stripWs_cons_split c rest]
        simp

theorem splitSentencesKeepJS_strip (s : Str) :
    stripWs (splitSentencesKeepJS s).flatten = stripWs s := by
  unfold splitSentencesKeepJS
  rw [splitSentGo_strip]
  simp [stripWs_nil]

theorem splitParaGo_strip :
    ∀ (xs : Str) (skip : ℕ) (cur : Str),
    (∀ c ∈ xs.take skip, isWs c = true) →
    stripWs (splitParaGo skip cur xs).flatten =
      stripWs cur.reverse ++ stripWs xs := by
  intro xs
  induction xs with
  | nil => intro skip cur _; simp [splitParaGo, stripWs_nil]
  | cons c rest ih =>
    intro skip cur hskip
    cases skip with
    | succ k =>
      have hred : splitParaGo (k + 1) cur (c :: rest) = splitParaGo k cur rest := rfl
      rw [hred]
      have hc : isWs c = true := hskip c (by simp)
      rw [ih k cur (fun d hd => hskip d (by simp [List.take_succ_cons]; exact Or.inr hd))]
      rw [stripWs_cons_ws hc]
    | zero =>
      rw [splitParaGo.eq_def]
      dsimp only
      by_cases hc : c = '\n'
      · rw [if_pos hc]
        cases hnl : lastNlIdx (rest.takeWhile isWs) with
        | some j =>
          have hj : j < (rest.takeWhile isWs).length := lastNlIdx_lt _ j hnl
          have hws : ∀ d ∈ rest.take (j + 1), isWs d = true := by
            intro d hd
            rw [take_le_takeWhile isWs rest (j + 1) (by omega)] at hd
            exact List.mem_takeWhile_imp ((List.take_sublist _ _).subset hd)
          rw [List.flatten_cons, stripWs_append, ih (j + 1) [] hws]
          rw [stripWs_cons_ws (by simp [hc, isWs])]
          simp [stripWs_nil]
        | none =>
          rw [ih 0 (c :: cur) (by simp), List.reverse_cons, stripWs_append,
            stripWs_cons_split c rest]
          simp
      · rw [if_neg hc]
        rw [ih 0 (c :: cur) (by simp), List.reverse_cons, stripWs_append,
          stripWs_cons_split c rest]
        simp

theorem splitParagraphsJS_strip (s : Str) :
    stripWs (splitParagraphsJS s).flatten = stripWs s := by
  unfold splitParagraphsJS
  rw [splitParaGo_strip s 0 [] (by simp)]
  simp [stripWs_nil]

theorem stripWs_testChunk_sp (current w : Str) :
    stripWs (if current.isEmpty then w else current ++ ' ' :: w) =
      stripWs current ++ stripWs w := by
  by_cases h : current.isEmpty
  · rw [if_pos h, List.isEmpty_iff.mp h, stripWs_nil, List.nil_append]
  · rw [if_neg h, stripWs_sp_join]

theorem stripWs_filter_trim_flatten (l : List Str) :
    stripWs ((l.filter (fun s => !(trimJS s).isEmpty)).flatten) =
      stripWs l.flatten := by
  induction l with
  | nil => rfl
  | cons p ps ih =>
    rw [List.filter_cons]
    by_cases h : (!(trimJS p).isEmpty) = true
    · rw [if_pos h, List.flatten_cons, List.flatten_cons, stripWs_append,
        stripWs_append, ih]
    · rw [if_neg h, List.flatten_cons, stripWs_append, ih]
      have he : (trimJS p).isEmpty := by
        revert h; cases (trimJS p).isEmpty <;> simp
      rw [stripWs_of_trimJS_empty he, List.nil_append]

theorem splitArbGo_strip (tc : Str → ℕ) (maxT : ℕ) :
    ∀ (ws : List Str) (chunks : List Str) (current : Str),
    stripWs (splitArbGo tc maxT 0 chunks current ws).flatten =
      stripWs chunks.flatten ++ stripWs current ++ stripWs ws.flatten := by
  intro ws
  induction ws with
  | nil =>
    intro chunks current
    rw [splitArbGo]
    by_cases h : current.isEmpty
    · rw [if_pos h, List.isEmpty_iff.mp h]
      simp [stripWs_nil]
    · rw [if_neg h]
      simp [stripWs_append, stripWs_nil]
  | cons w ws ih =>
    intro chunks current
    rw [splitArbGo]
    dsimp only
    by_cases h1 : tc (if current.isEmpty then w else current ++ ' ' :: w) ≤ maxT
    · rw [if_pos h1, ih, stripWs_testChunk_sp, List.flatten_cons, stripWs_append]
      simp [List.append_assoc]
    · rw [if_neg h1]
      by_cases h2 : ¬current.isEmpty
      · rw [if_pos h2]
        rw [if_neg (by omega : ¬ (0:ℕ) > 0), ih]
        simp [stripWs_append, List.append_assoc]
      · rw [if_neg h2, ih]
        have : current = [] := List.isEmpty_iff.mp (by revert h2; cases current.isEmpty <;> simp)
        subst this
        simp [stripWs_append, stripWs_nil, List.append_assoc]

theorem splitArbitrarily_strip (tc : Str → ℕ) (maxT : ℕ) (text : Str) :
    stripWs (splitArbitrarily tc maxT 0 text).flatten = stripWs text := by
  unfold splitArbitrarily
  rw [splitArbGo_strip, splitWsJS_flatten, stripWs_stripWs]
  simp [stripWs_nil]

theorem stripWs_testChunk_nl2 (current p : Str) :
    stripWs (if current.isEmpty then p else current ++ '\n' :: '\n' :: p) =
      stripWs current ++ stripWs p := by
  by_cases h : current.isEmpty
  · rw [if_pos h, List.isEmpty_iff.mp h, stripWs_nil, List.nil_append]
  · rw [if_neg h, stripWs_nl2_join]

theorem splitSentencesGo_strip (tc : Str → ℕ) (maxT : ℕ) :
    ∀ (ss : List Str) (chunks : List Str) (current : Str),
    stripWs (splitSentencesGo tc maxT 0 chunks current ss).flatten =
      stripWs chunks.flatten ++ stripWs current ++ stripWs ss.flatten := by
  intro ss
  induction ss with
  | nil =>
    intro chunks current
    rw [splitSentencesGo]
    by_cases h : current.isEmpty
    · rw [if_pos h, List.isEmpty_iff.mp h]
      simp [stripWs_nil]
    · rw [if_neg h]
      simp [stripWs_append, stripWs_nil]
  | cons sSent ss ih =>
    intro chunks current
    rw [splitSentencesGo]
    dsimp only
    by_cases h1 : tc (if current.isEmpty then sSent else current ++ ' ' :: sSent) ≤ maxT
    · rw [if_pos h1, ih, stripWs_testChunk_sp, List.flatten_cons, stripWs_append]
      simp [List.append_assoc]
    · rw [if_neg h1]
      by_cases h2 : ¬current.isEmpty
      · rw [if_pos h2]
        rw [if_neg (by omega : ¬ (0:ℕ) > 0), ih]
        simp [stripWs_append, List.append_assoc]
      · rw [if_neg h2, ih]
        have hcur : current = [] :=
          List.isEmpty_iff.mp (by revert h2; cases current.isEmpty <;> simp)
        subst hcur
        rw [List.flatten_append, stripWs_append, splitArbitrarily_strip]
        simp [stripWs_append, stripWs_nil, List.append_assoc]

theorem splitBySentences_strip (tc : Str → ℕ) (maxT : ℕ) (text : Str) :
    stripWs (splitBySentences tc maxT 0 text).flatten = stripWs text := by
  unfold splitBySentences
  rw [splitSentencesGo_strip, stripWs_filter_trim_flatten,
    splitSentencesKeepJS_strip]
  simp [stripWs_nil]

theorem splitParagraphsGo_strip (tc : Str → ℕ) (maxT : ℕ) :
    ∀ (ps : List Str) (chunks : List Str) (current : Str),
    stripWs (splitParagraphsGo tc maxT 0 chunks current ps).flatten =
      stripWs chunks.flatten ++ stripWs current ++ stripWs ps.flatten := by
  intro ps
  induction ps with
  | nil =>
    intro chunks current
    rw [splitParagraphsGo]
    by_cases h : current.isEmpty
    · rw [if_pos h, List.isEmpty_iff.mp h]
      simp [stripWs_nil]
    · rw [if_neg h]
      simp [stripWs_append, stripWs_nil]
  | cons p ps ih =>
    intro chunks current
    rw [splitParagraphsGo]
    dsimp only
    by_cases h1 : tc (if current.isEmpty then p else current ++ '\n' :: '\n' :: p) ≤ maxT
    · rw [if_pos h1, ih, stripWs_testChunk_nl2, List.flatten_cons, stripWs_append]
      simp [List.append_assoc]
    · rw [if_neg h1]
      by_cases h2 : ¬current.isEmpty
      · rw [if_pos h2]
        rw [if_neg (by omega : ¬ (0:ℕ) > 0), ih]
        simp [stripWs_append, List.append_assoc]
      · rw [if_neg h2, ih]
        have hcur : current = [] :=
          List.isEmpty_iff.mp (by revert h2; cases current.isEmpty <;> simp)
        subst hcur
        rw [List.flatten_append, stripWs_append, splitBySentences_strip]
        simp [stripWs_append, stripWs_nil, List.append_assoc]

theorem splitByParagraphs_strip (tc : Str → ℕ) (maxT : ℕ) (text : Str) :
    stripWs (splitByParagraphs tc maxT 0 text).flatten = stripWs text := by
  unfold splitByParagraphs
  rw [splitParagraphsGo_strip, stripWs_filter_trim_flatten,
    splitParagraphsJS_strip]
  simp [stripWs_nil]

theorem toTextChunks_contents (tc : Str → ℕ) (cleanText source : Str) :
    ∀ (ps : List Str) (i pos : ℕ),
    (toTextChunks tc cleanText source ps i pos).map (fun c => c.content) = ps := by
  intro ps
  induction ps with
  | nil => intro i pos; rfl
  | cons p ps ih =>
    intro i pos
    rw [toTextChunks]
    rw [List.map_cons, ih]


/-- **C4** (corrected).  With `chunkOverlap = 0`, non-whitespace content is
preserved up to the final minimum-size filter: for every token counter and
strategy flags, the concatenated contents of the chunks `chunkText` builds
*before* its final filter (`chunkTextRaw`) carry exactly the non-whitespace
characters of the normalised input, and the filtered output is an
order-preserving sublist of those chunks.  As stated the claim is false:
the final filter `tokenCount >= minChunkSize || wordCount >= 10` silently
drops whole chunks, losing their non-whitespace content — the
counterexample is a `chunkText` run returning the empty list on an input
with non-whitespace characters. -/
theorem C4_content_preservation (tc : Str → ℕ) (text source : Str)
    (opts : ChunkingOptions) (hov : opts.chunkOverlap = 0) :
    stripWs (((chunkTextRaw tc text source opts).map
        (fun c => c.content)).flatten) = stripWs (cleanTextOf text) ∧
    (chunkText tc text source opts).Sublist
      (chunkTextRaw tc text source opts) := by
  constructor
  · unfold chunkTextRaw
    by_cases h : (cleanTextOf text).isEmpty ∨ tc (cleanTextOf text) ≤ opts.maxTokens
    · rw [if_pos h]
      simp
    · rw [if_neg h, toTextChunks_contents]
      by_cases hp : opts.preserveParagraphs
      · rw [if_pos hp, hov, splitByParagraphs_strip]
      · rw [if_neg hp]
        by_cases hs : opts.preserveSentences
        · rw [if_pos hs, hov, splitBySentences_strip]
        · rw [if_neg hs, hov, splitArbitrarily_strip]
  · unfold chunkText
    dsimp only
    by_cases h : (cleanTextOf text).isEmpty ∨ tc (cleanTextOf text) ≤ opts.maxTokens
    · rw [if_pos h]
    · rw [if_neg h]
      exact List.filter_sublist _

set_option maxRecDepth 40000 in
/-- Counterexample for C4 as stated: with `minChunkSize = 50` and
`maxTokens = 2`, `chunkText` on `"aaaaaaaa bb"` (zero overlap) returns the
empty list — every chunk fails the final filter — although the normalised
input has non-whitespace characters, so content is lost. -/
theorem C4_content_preservation_counterexample :
    chunkText estimateTokenCount "aaaaaaaa bb".toList "s".toList
      ⟨2, 0, false, false, 50⟩ = [] ∧
    stripWs (cleanTextOf "aaaaaaaa bb".toList) ≠ [] := by
  constructor
  · decide
  · decide

/-- Witness for C4's amended preservation at a concrete input. -/
theorem C4_content_preservation_witness :
    (⟨2, 0, false, false, 50⟩ : ChunkingOptions).chunkOverlap = 0 ∧
    (stripWs (((chunkTextRaw estimateTokenCount "a b".toList "s".toList
        ⟨2, 0, false, false, 50⟩).map (fun c => c.content)).flatten) =
      stripWs (cleanTextOf "a b".toList) ∧
    (chunkText estimateTokenCount "a b".toList "s".toList
        ⟨2, 0, false, false, 50⟩).Sublist
      (chunkTextRaw estimateTokenCount "a b".toList "s".toList
        ⟨2, 0, false, false, 50⟩)) :=
  ⟨rfl, C4_content_preservation estimateTokenCount "a b".toList "s".toList
    ⟨2, 0, false, false, 50⟩ rfl⟩

end Rag
